import Mathlib

/-!
# Domset view clustering: a verification development

A shallow embedding of `src/domset.cc` (class `nomoko::Domset`) and theorems about it.

Conventions of the embedding.

* Arithmetic on `float` is embedded as exact arithmetic in an arbitrary linearly ordered
  field `α` (with floor and ceiling); every definition is executable at `α = ℚ`.
  A division by zero follows the field convention `x / 0 = 0`, except the division by the
  median of the distances in `computeViewDistance`: a zero median is reachable (cameras at
  the same place), and there the results of `float` arithmetic are embedded, a NaN as
  `none`. The theorems about the other quotients take their divisor to be nonzero.
* The calls into libm (`exp`, `acos`) and the square root behind Eigen's `norm()` are the
  fields of a parameter `F : Libm α`.
* `std::vector` is `List`; `std::map` and `std::set` are key-ordered lists; an
  `Eigen::MatrixXf` is a function of its two indices.
* The loops marked `for_parallel` are embedded in their sequential order (the build with
  `DOMSET_USE_OPENMP` off).
* A run that ends in `exit(0)`, in a C++ exception, in undefined behaviour or that does not
  terminate yields `none`; so does `getSimilarityMatrix` when an entry of the matrix is NaN,
  which is no number of `α`.
-/

namespace nomoko

/-! ## Data model -/

/-- Modelled from the spec: an `Eigen::Vector3f`, the three coefficients of a position. The
header that declares the types is not part of the sources. -/
structure Vec3 (α : Type) where
  x : α
  y : α
  z : α

/-- Modelled from the spec: a 3D point with the list of views that observed it
(`Point` of the missing header; the fields `pos` and `viewList` are the ones the source
uses). -/
structure Point (α : Type) where
  pos : Vec3 α
  viewList : List Nat

/-- Modelled from the spec: a view with its camera centre `trans` and the indices of the
points it observes (`View` of the missing header; the fields `trans` and `viewPoints` are the
ones the source uses). -/
structure View (α : Type) where
  trans : Vec3 α
  viewPoints : List Nat

/-- The three library functions on `float` the source calls: `exp` and `acos` of libm and the
square root inside Eigen's `norm()` and `normalize()`. -/
structure Libm (α : Type) where
  exp : α → α
  acos : α → α
  sqrt : α → α

/-- Modelled from the spec: the members of class `Domset` that `domset.cc` reads and writes.
The class declaration is in the missing header; the constants `kNumIter`, `lambda`,
`kAngleSigma_2` and `kVoxelSize` are taken as members. `viewDists` is the `Eigen::MatrixXf`
of view distances as a function of its indices. -/
structure Domset (α : Type) where
  points : List (Point α)
  origPoints : List (Point α)
  views : List (View α)
  pcCentre : Point α
  normScale : α
  viewDists : Nat → Nat → α
  finalClusters : List (List Nat)
  kMinClusterSize : Nat
  kMaxClusterSize : Nat
  kNumIter : Nat
  lambda : α
  kAngleSigma_2 : α
  kVoxelSize : α

section Geometry

variable {α : Type} [LinearOrderedField α]

/-- The value of `std::numeric_limits<float>::min()`: the smallest positive normal `float`,
`2^-126`. -/
def FLT_MIN : α := 1 / 2 ^ 126

/-- The value of `std::numeric_limits<float>::max()`: `(2^24 - 1) * 2^104`. -/
def FLT_MAX : α := (2 ^ 24 - 1) * 2 ^ 104

/-- Coefficient-wise `a + b` of Eigen. -/
def Vec3.add (a b : Vec3 α) : Vec3 α := ⟨a.x + b.x, a.y + b.y, a.z + b.z⟩

/-- Coefficient-wise `a - b` of Eigen. -/
def Vec3.sub (a b : Vec3 α) : Vec3 α := ⟨a.x - b.x, a.y - b.y, a.z - b.z⟩

/-- The product `a * s` of a vector and a scalar. -/
def Vec3.smul (a : Vec3 α) (s : α) : Vec3 α := ⟨a.x * s, a.y * s, a.z * s⟩

/-- The quotient `a / s` of a vector by a scalar. -/
def Vec3.sdiv (a : Vec3 α) (s : α) : Vec3 α := ⟨a.x / s, a.y / s, a.z / s⟩

/-- The inner product `a.dot(b)`. -/
def Vec3.dot (a b : Vec3 α) : α := a.x * b.x + a.y * b.y + a.z * b.z

/-- The zero vector (`pos << 0, 0, 0`). -/
def Vec3.zero : Vec3 α := ⟨0, 0, 0⟩

/-- Eigen's `a.norm()`: the square root of the squared norm. -/
def Vec3.norm (F : Libm α) (a : Vec3 α) : α := F.sqrt (a.dot a)

/-- Eigen's `a.normalize()`: divide by the norm when the squared norm is positive. -/
def Vec3.normalize (F : Libm α) (a : Vec3 α) : Vec3 α :=
  let z := a.dot a
  if z > 0 then a.sdiv (F.sqrt z) else a

end Geometry

/-! ## Normalizer (`normalizePointCloud`, `deNormalizePointCloud`) -/

section Normalizer

variable {α : Type} [LinearOrderedField α]

/-- The two loops at the end of `normalizePointCloud` (source lines 60-75): with the stored
centre `pcCentre.pos` and scale `normScale`, every point position and every camera centre
`p` becomes `(p - pcCentre.pos) * normScale`. -/
def normalizeTransform (st : Domset α) : Domset α :=
  { st with
    points := st.points.map fun p =>
      { p with pos := (p.pos.sub st.pcCentre.pos).smul st.normScale }
    views := st.views.map fun v =>
      { v with trans := (v.trans.sub st.pcCentre.pos).smul st.normScale } }

/-- The first loop of `normalizePointCloud` (source lines 29-51): it accumulates the total
distance of every point to its nearest other point and the centre. `knn i` stands for
`ret_index[1]` of the kd-tree query of point `i` (nanoflann is an external library). The
result is `(totalDist, pcCentre.pos)`. -/
def normalizeAccumulate (F : Libm α) (knn : Nat → Nat) (points : List (Point α)) :
    α × Vec3 α :=
  let numPoints : α := (points.length : α)
  (List.range points.length).foldl
    (fun acc i =>
      match points.get? i, points.get? (knn i) with
      | some p, some q =>
        (acc.1 + (p.pos.sub q.pos).norm F, acc.2.add (p.pos.sdiv numPoints))
      | _, _ => acc)
    (0, Vec3.zero)

/-- The method `Domset::normalizePointCloud`: compute the centre and the scale
`1 / (totalDist / numPoints)`, then transform points and camera centres. -/
def normalizePointCloud (F : Libm α) (knn : Nat → Nat) (st : Domset α) : Domset α :=
  let acc := normalizeAccumulate F knn st.points
  let avgDist := acc.1 / (st.points.length : α)
  normalizeTransform
    { st with pcCentre := { st.pcCentre with pos := acc.2 }, normScale := 1 / avgDist }

/-- The method `Domset::deNormalizePointCloud`: every point position and every camera centre
`p` becomes `p / normScale + pcCentre.pos`. -/
def deNormalizePointCloud (st : Domset α) : Domset α :=
  { st with
    points := st.points.map fun p =>
      { p with pos := (p.pos.sdiv st.normScale).add st.pcCentre.pos }
    views := st.views.map fun v =>
      { v with trans := (v.trans.sdiv st.normScale).add st.pcCentre.pos } }

end Normalizer

/-! ## Ordered containers (`std::set<size_t>`, `std::map<size_t, std::vector<size_t>>`) -/

/-- The method `insert` of a `std::set<size_t>`, kept as the ascending list of its elements:
the element is put at its place unless it is already there. -/
def setInsert (a : Nat) : List Nat → List Nat
  | [] => [a]
  | b :: l => if a < b then a :: b :: l else if a = b then b :: l else b :: setInsert a l

/-- A `std::map<size_t, std::vector<size_t>>`, kept as the list of its entries in ascending
order of the keys. -/
abbrev IdxMap := List (Nat × List Nat)

/-- The method `find` of the map (`m.find(k)`): the vector stored under `k`, if any. -/
def mapFind (k : Nat) : IdxMap → Option (List Nat)
  | [] => none
  | e :: m => if e.1 = k then some e.2 else mapFind k m

/-- The access `m[k]` followed by a change `f` of the vector found there; as `operator[]`
does, an entry with an empty vector is created at its place when the key is new. -/
def mapUpdate (k : Nat) (f : List Nat → List Nat) : IdxMap → IdxMap
  | [] => [(k, f [])]
  | e :: m =>
    if k < e.1 then (k, f []) :: e :: m
    else if k = e.1 then (e.1, f e.2) :: m
    else e :: mapUpdate k f m

/-- The method `erase` of the map: the entry with key `k` is removed. -/
def mapErase (k : Nat) : IdxMap → IdxMap
  | [] => []
  | e :: m => if e.1 = k then m else e :: mapErase k m

section VoxelFilter

variable {α : Type} [LinearOrderedField α] [FloorRing α]

/-- The conversion `static_cast<size_t>(x)` of a `float`: the integral part, as a 64-bit
unsigned number. (C++ leaves the conversion undefined for `x <= -1` and for `x >= 2^64`;
the embedding yields `0` for a negative `x`.) -/
def toSizeT (x : α) : Nat := Int.toNat ⌊x⌋ % 2 ^ 64

/-- The loop of source lines 113-121: the coefficient-wise minimum of the positions, started
from `(FLT_MAX, FLT_MAX, FLT_MAX)`. -/
def voxelMinPt (points : List (Point α)) : Vec3 α :=
  points.foldl
    (fun m p =>
      ⟨if p.pos.x < m.x then p.pos.x else m.x,
       if p.pos.y < m.y then p.pos.y else m.y,
       if p.pos.z < m.z then p.pos.z else m.z⟩)
    ⟨FLT_MAX, FLT_MAX, FLT_MAX⟩

/-- The loop of source lines 113-121: the coefficient-wise maximum of the positions, started
from `(FLT_MIN, FLT_MIN, FLT_MIN)` as the source does. -/
def voxelMaxPt (points : List (Point α)) : Vec3 α :=
  points.foldl
    (fun m p =>
      ⟨if p.pos.x > m.x then p.pos.x else m.x,
       if p.pos.y > m.y then p.pos.y else m.y,
       if p.pos.z > m.z then p.pos.z else m.z⟩)
    ⟨FLT_MIN, FLT_MIN, FLT_MIN⟩

/-- The voxel counts of source lines 124-126: `static_cast<size_t>(ceil(max - min) / size)`
on each axis; the ceiling is taken of the difference, before the division. -/
def numVoxels (points : List (Point α)) (sizeX sizeY sizeZ : α) : Nat × Nat × Nat :=
  let minPt := voxelMinPt points
  let maxPt := voxelMaxPt points
  (toSizeT ((⌈maxPt.x - minPt.x⌉ : α) / sizeX),
   toSizeT ((⌈maxPt.y - minPt.y⌉ : α) / sizeY),
   toSizeT ((⌈maxPt.z - minPt.z⌉ : α) / sizeZ))

/-- The integer cell coordinates `(x, y, z)` of a point (source lines 145-147). -/
def voxelCell (points : List (Point α)) (sizeX sizeY sizeZ : α) (pt : Point α) :
    Nat × Nat × Nat :=
  let minPt := voxelMinPt points
  (toSizeT ((pt.pos.x - minPt.x) / sizeX),
   toSizeT ((pt.pos.y - minPt.y) / sizeY),
   toSizeT ((pt.pos.z - minPt.z) / sizeZ))

/-- The voxel id of a point (source line 148): `(z * numVoxelZ) + (y * numVoxelY) + x` in
`size_t` arithmetic. -/
def voxelId (points : List (Point α)) (sizeX sizeY sizeZ : α) (pt : Point α) : Nat :=
  let n := numVoxels points sizeX sizeY sizeZ
  let c := voxelCell points sizeX sizeY sizeZ pt
  (c.2.2 * n.2.2 + c.2.1 * n.2.1 + c.1) % 2 ^ 64

/-- One turn of the loop of source lines 143-160 for the point index `p` with voxel id `id`:
a new id gets an empty vector in `voxels` and is appended to `voxelIds`; then `p` is appended
to `voxels[id]`. -/
def voxelAdd (acc : IdxMap × List Nat) (id p : Nat) : IdxMap × List Nat :=
  let acc1 : IdxMap × List Nat :=
    if mapFind id acc.1 = none then (mapUpdate id (fun _ => []) acc.1, acc.2 ++ [id])
    else acc
  (mapUpdate id (fun l => l ++ [p]) acc1.1, acc1.2)

/-- The loop of source lines 143-160: the map `voxels` from voxel id to the indices of its
points, and `voxelIds`, the ids in the order of their first appearance. `ids` lists the voxel
id of every point, in the order of the points. -/
def voxelGroups (ids : List Nat) : IdxMap × List Nat :=
  (List.range ids.length).foldl
    (fun acc p => voxelAdd acc (ids.getD p 0) p)
    ([], [])

/-- The set `vl` built at source lines 173-180: every entry of the view list of every member
point is inserted into a `std::set`. -/
def voxelViewSet (points : List (Point α)) (members : List Nat) : List Nat :=
  members.foldl
    (fun vl p => ((points.get? p).map (fun pt => pt.viewList)).getD [] |>.foldl
      (fun vl j => setInsert j vl) vl)
    []

/-- The loop of source lines 174-180 on the local `pos`: the member positions are added onto
it. `pos` is declared as `Eigen::Vector3f pos;` without an initial value, and `pos0` is what
it holds at that time. -/
def voxelSum (points : List (Point α)) (members : List Nat) (pos0 : Vec3 α) : Vec3 α :=
  members.foldl
    (fun pos p => match points.get? p with
      | some pt => pos.add pt.pos
      | none => pos)
    pos0

/-- The position of the new point of a voxel (source lines 172-181): the total of `voxelSum`
divided by the member count. -/
def voxelPos (points : List (Point α)) (members : List Nat) (pos0 : Vec3 α) : Vec3 α :=
  (voxelSum points members pos0).sdiv (members.length : α)

/-- The critical section of source lines 190-193: the index the new point will get is
appended to `viewPoints` of every view in `vl`. (An id outside of `views` is an access out of
bounds in the source; the embedding leaves `views` as it is for it.) -/
def addBackEdges (views : List (View α)) (vl : List Nat) (newIdx : Nat) : List (View α) :=
  vl.foldl
    (fun vs viewID => vs.modify (fun v => { v with viewPoints := v.viewPoints ++ [newIdx] })
      viewID)
    views

/-- One turn of the loop of source lines 167-195 for the voxel `vId` at position `vmId` of
`voxelIds`: a voxel without points is skipped; otherwise the new point is built, the back
edges are added and the point is appended to `newPoints`. -/
def voxelEmit (uninit : Nat → Vec3 α) (points : List (Point α)) (voxels : IdxMap)
    (acc : List (View α) × List (Point α)) (vmId vId : Nat) :
    List (View α) × List (Point α) :=
  let members := (mapFind vId voxels).getD []
  if members.length = 0 then acc
  else
    let vl := voxelViewSet points members
    let newSP : Point α := ⟨voxelPos points members (uninit vmId), vl⟩
    (addBackEdges acc.1 vl acc.2.length, acc.2 ++ [newSP])

/-- The method `Domset::voxelGridFilter`. It ends the process (`none`) when a voxel size is
not positive. `uninit vmId` is what the local `pos`, declared without an initial value,
holds when turn `vmId` of the second loop starts. -/
def voxelGridFilter (uninit : Nat → Vec3 α) (st : Domset α) (sizeX sizeY sizeZ : α) :
    Option (Domset α) :=
  if sizeX ≤ 0 ∨ sizeY ≤ 0 ∨ sizeZ ≤ 0 then none
  else
    let ids := st.points.map (voxelId st.points sizeX sizeY sizeZ)
    let g := voxelGroups ids
    let out := (List.range g.2.length).foldl
      (fun acc vmId => voxelEmit uninit st.points g.1 acc vmId (g.2.getD vmId 0))
      (st.views, [])
    some { st with origPoints := st.points, points := out.2, views := out.1 }

end VoxelFilter

/-! ## View distances and similarity -/

section Similarity

variable {α : Type} [LinearOrderedField α]

/-- The method `Domset::getAllDistances`: the matrix of the distances between the camera
centres; the process ends (`none`) when there is no view. -/
def getAllDistances (F : Libm α) (st : Domset α) : Option (Domset α) :=
  if st.views.length = 0 then none
  else
    let zero : View α := ⟨Vec3.zero, []⟩
    some { st with
      viewDists := fun i j => ((st.views.getD i zero).trans.sub (st.views.getD j zero).trans).norm F }

/-- The access `xId2vId.at(k)` of the `std::map<size_t, size_t>`, kept as the list of its
entries: it throws (`none`) when the key is absent. -/
def xAt (xId2vId : List (Nat × Nat)) (k : Nat) : Option Nat := xId2vId.lookup k

/-- The access `xId2vId[k]`: the value of a key that is absent reads as `0`. (The source
reaches `xId2vId[k]` only after `getDistanceMedian` has read the keys `0 .. size - 1` with
`at`, so `operator[]` never has to add an entry.) -/
def xGet (xId2vId : List (Nat × Nat)) (k : Nat) : Nat := (xId2vId.lookup k).getD 0

/-- The inner loop of `getDistanceMedian` (source lines 262-266) for the row `i` with view
`v1`. -/
def medianRow (st : Domset α) (xId2vId : List (Nat × Nat)) (numC i v1 : Nat)
    (dists : List α) : Option (List α) :=
  (List.range numC).foldlM
    (fun dists j =>
      if i = j then some dists
      else (xAt xId2vId j).map fun v2 => dists ++ [st.viewDists v1 v2])
    dists

/-- The vector `dists` of `getDistanceMedian` (source lines 257-267), before it is sorted. -/
def medianDists (st : Domset α) (xId2vId : List (Nat × Nat)) : Option (List α) :=
  let numC := xId2vId.length
  (List.range numC).foldlM
    (fun dists i => (xAt xId2vId i).bind fun v1 => medianRow st xId2vId numC i v1 dists)
    []

/-- The method `Domset::getDistanceMedian`: the entry at index `size / 2` of the sorted
distances between different items. It ends the process on an empty map and throws when a key
below the size is absent (`none`). With one item `dists` is empty and `dists[0]` reads out of
bounds, which is undefined (`none`). -/
def getDistanceMedian (st : Domset α) (xId2vId : List (Nat × Nat)) : Option α :=
  if xId2vId.length = 0 then none
  else
    (medianDists st xId2vId).bind fun dists =>
      let sorted := dists.insertionSort (fun a b => a ≤ b)
      sorted.get? (sorted.length / 2)

/-- The algorithm `std::set_intersection` on two ascending ranges, with `fuel` bounding the
number of steps (every step drops an element of a range). -/
def setIntersectionAux : Nat → List Nat → List Nat → List Nat
  | 0, _, _ => []
  | _ + 1, [], _ => []
  | _ + 1, _, [] => []
  | fuel + 1, a :: l1, b :: l2 =>
    if a < b then setIntersectionAux fuel l1 (b :: l2)
    else if b < a then setIntersectionAux fuel (a :: l1) l2
    else a :: setIntersectionAux fuel l1 l2

/-- The method `Domset::findCommonPoints`: the `std::set_intersection` of the two vectors
`viewPoints`. -/
def findCommonPoints (v1 v2 : View α) : List Nat :=
  setIntersectionAux (v1.viewPoints.length + v2.viewPoints.length) v1.viewPoints v2.viewPoints

/-- The term `expAngle` of one common point in `computeViewSimilaity` (source lines
315-322). A point index outside of `points` is an access out of bounds in the source; the
embedding reads a point at the origin there. -/
def expAngle (F : Libm α) (st : Domset α) (v1 v2 : View α) (pId : Nat) : α :=
  let pt := st.points.getD pId ⟨Vec3.zero, []⟩
  let c1 := (v1.trans.sub pt.pos).normalize F
  let c2 := (v2.trans.sub pt.pos).normalize F
  let angle := F.acos (c1.dot c2)
  F.exp (-(angle * angle) / st.kAngleSigma_2)

/-- The method `Domset::computeViewSimilaity`: the mean of `expAngle` over the common
points. The final test `ans != ans` catches the NaN of `0 / 0`, which arises when there is
no common point. -/
def computeViewSimilaity (F : Libm α) (st : Domset α) (v1 v2 : View α) : α :=
  let commonPoints := findCommonPoints v1 v2
  let numCP := commonPoints.length
  let w := commonPoints.foldl (fun w pId => w + expAngle F st v1 v2 pId) 0
  let ans := w / (numCP : α)
  if numCP = 0 then 0 else ans

/-- The method `Domset::computeViewDistance`; `none` stands for the result NaN. For
`medianDist = 0` the quotient `-(vd - medianDist) / medianDist` is a division by zero of
`float` arithmetic: with `vd = 0` it is `0 / 0`, a NaN, and so are `exp` of it, `dm` and the
result, which nothing tests; with `vd > 0` it is `-inf`, `exp(-inf)` is `0` and the result is
`1 / (1 + 0) = 1`; with `vd < 0` it is `+inf`, `exp(+inf)` is `+inf` and the result is
`1 / inf = 0`. -/
def computeViewDistance (F : Libm α) (st : Domset α) (vId1 vId2 : Nat) (medianDist : α) :
    Option α :=
  if vId1 = vId2 then some 1
  else
    let vd := st.viewDists vId1 vId2
    if medianDist = 0 then
      if vd = 0 then none else if 0 < vd then some 1 else some 0
    else
      let dm := 1 + F.exp (-(vd - medianDist) / medianDist)
      some (1 / dm)

/-- The body of the loops of `getSimilarityMatrix` (source lines 225-236): the entry
`simMat(xId1, xId2)`. It is NaN (`none`) when `sd` is, also for `sv = 0`. A view id outside
of `views` is an access out of bounds in the source; the embedding reads a view without
points at the origin there. -/
def similarityEntry (F : Libm α) (st : Domset α) (xId2vId : List (Nat × Nat))
    (medianDist : α) (xId1 xId2 : Nat) : Option α :=
  let vId1 := xGet xId2vId xId1
  let vId2 := xGet xId2vId xId2
  if vId1 = vId2 then some 0
  else
    let v2 := st.views.getD vId2 ⟨Vec3.zero, []⟩
    let v1 := st.views.getD vId1 ⟨Vec3.zero, []⟩
    let sv := computeViewSimilaity F st v1 v2
    (computeViewDistance F st vId1 vId2 medianDist).map fun sd => sv * sd

/-- The method `Domset::getSimilarityMatrix`. It ends the process (`none`) when the map or
the point list is empty, and gives up with the exception or the undefined read of
`getDistanceMedian`. The source returns the matrix also when one of its `numC * numC` entries
is NaN; such a matrix is no matrix over `α`, and the embedding yields `none` for it. Only
the values of the function returned at indices below `numC` are entries of the matrix. -/
def getSimilarityMatrix (F : Libm α) (st : Domset α) (xId2vId : List (Nat × Nat)) :
    Option (Nat → Nat → α) :=
  let numC := xId2vId.length
  let numP := st.points.length
  if numC = 0 ∨ numP = 0 then none
  else
    (getDistanceMedian st xId2vId).bind fun medianDist =>
      if (List.range numC).all (fun xId1 => (List.range numC).all fun xId2 =>
          (similarityEntry F st xId2vId medianDist xId1 xId2).isSome) then
        some fun xId1 xId2 => (similarityEntry F st xId2vId medianDist xId1 xId2).getD 0
      else none

end Similarity

/-! ## Affinity propagation and the cluster finalizer (`computeClustersAP`) -/

section Clustering

variable {α : Type} [LinearOrderedField α]

/-- The running maximum of source lines 361-368: the largest `S(i,kk) + A(i,kk)` over the
indices `kks`, started from `FLT_MIN`. -/
def runningMax (S A : Nat → Nat → α) (i : Nat) (kks : List Nat) : α :=
  kks.foldl (fun m kk => if S i kk + A i kk > m then S i kk + A i kk else m) FLT_MIN

/-- The responsibility update of one iteration (source lines 356-372). Every entry is
computed from `S`, `A` and its own old value, so the loop over `(i, k)` is a map. -/
def updateResponsibility (lambda : α) (numX : Nat) (S A R : Nat → Nat → α) :
    Nat → Nat → α :=
  fun i k =>
    let max1 := runningMax S A i (List.range k)
    let max2 := runningMax S A i (List.range' (k + 1) (numX - (k + 1)))
    let max := Max.max max1 max2
    (1 - lambda) * (S i k - max) + lambda * R i k

/-- The partial sums of source lines 391-408 and 421-432: the sum of the positive `R(ii,k)`
over the indices `iis`. -/
def positiveSum (R : Nat → Nat → α) (k : Nat) (iis : List Nat) : α :=
  iis.foldl (fun sum ii => if R ii k > 0 then sum + R ii k else sum) 0

/-- The availability update of one iteration (source lines 382-412); the diagonal is
skipped. -/
def updateAvailability (lambda : α) (numX : Nat) (R A : Nat → Nat → α) : Nat → Nat → α :=
  fun i k =>
    if i = k then A i k
    else
      let maxik := Max.max i k
      let minik := Min.min i k
      let sum1 := positiveSum R k (List.range minik)
      let sum2 := positiveSum R k (List.range' (minik + 1) (maxik - (minik + 1)))
      let sum3 := positiveSum R k (List.range' (maxik + 1) (numX - (maxik + 1)))
      let r := R k k + sum1 + sum2 + sum3
      (1 - lambda) * Min.min 0 r + lambda * A i k

/-- The loop over `m` of source lines 347-413: `kNumIter` times the responsibility update
followed by the availability update. The result is `(R, A)`. -/
def apIterate (lambda : α) (numX : Nat) (S : Nat → Nat → α) :
    Nat → (Nat → Nat → α) × (Nat → Nat → α) → (Nat → Nat → α) × (Nat → Nat → α)
  | 0, RA => RA
  | m + 1, RA =>
    let R := updateResponsibility lambda numX S RA.2 RA.1
    apIterate lambda numX S m (R, updateAvailability lambda numX R RA.2)

/-- The update of the diagonal of `A` after the iterations (source lines 417-434). -/
def selfAvailability (lambda : α) (numX : Nat) (R A : Nat → Nat → α) : Nat → Nat → α :=
  fun i k =>
    if i = k then
      let sum1 := positiveSum R i (List.range i)
      let sum2 := positiveSum R i (List.range' (i + 1) (numX - (i + 1)))
      (1 - lambda) * (sum1 + sum2) + lambda * A i i
    else A i k

/-- The matrix `E = R + A` of source lines 437-438, from the similarity matrix. -/
def exemplarMatrix (lambda : α) (numX kNumIter : Nat) (S : Nat → Nat → α) : Nat → Nat → α :=
  let RA := apIterate lambda numX S kNumIter (fun _ _ => 0, fun _ _ => 0)
  let A := selfAvailability lambda numX RA.1 RA.2
  fun i j => RA.1 i j + A i j

/-- The inner loop of source lines 445-451 for the row `i`: the value of `idxForI` after the
row, from its value before the row. -/
def exemplarOfRow (E : Nat → Nat → α) (numX i idxForI : Nat) : Nat :=
  ((List.range numX).foldl
    (fun acc j => if E i j > acc.1 then (E i j, j) else acc)
    ((FLT_MIN : α), idxForI)).2

/-- The loop of source lines 443-453: the set `centers` and the final value of `idxForI`,
which is declared before the loop with the value `0`. -/
def findCenters (E : Nat → Nat → α) (numX : Nat) : List Nat × Nat :=
  (List.range numX).foldl
    (fun acc i =>
      let idxForI := exemplarOfRow E numX i acc.2
      (setInsert idxForI acc.1, idxForI))
    ([], 0)

/-- The inner loop of source lines 459-465 for the item `i`: `idxForI` becomes `i` whenever a
center has a similarity above the running maximum. -/
def assignKey (S : Nat → Nat → α) (centers : List Nat) (i idxForI : Nat) : Nat :=
  (centers.foldl
    (fun acc c => if S i c > acc.1 then (S i c, i) else acc)
    ((FLT_MIN : α), idxForI)).2

/-- The initial cluster map of source lines 455-467: an empty vector under every center,
then every item `i` is appended to `clMap[idxForI]`. -/
def initialClusters (S : Nat → Nat → α) (numX : Nat) (centers : List Nat) (idxForI : Nat) :
    IdxMap :=
  let clMap0 : IdxMap := centers.foldl (fun m c => mapUpdate c (fun _ => []) m) []
  ((List.range numX).foldl
    (fun acc i =>
      let idx := assignKey S centers i acc.2
      (mapUpdate idx (fun l => l ++ [i]) acc.1, idx))
    (clMap0, idxForI)).1

/-- The search of source lines 475-486 for the cluster to merge the cluster with key `k1`
and `size1` members into: `(minDist, minId)` after the loop over `clMap`. It throws (`none`)
when `at` does not find a key. (`minId` is an `int` in the source; the keys are below the
number of items, of which a square matrix of `float` was allocated, so the conversion of a
key keeps its value.) -/
def mergeTarget (st : Domset α) (xId2vId : List (Nat × Nat)) (clMap : IdxMap)
    (k1 size1 : Nat) : Option (α × Int) :=
  (xAt xId2vId k1).bind fun vId1 =>
    clMap.foldlM
      (fun acc p2 =>
        if k1 = p2.1 then some acc
        else (xAt xId2vId p2.1).map fun vId2 =>
          if st.viewDists vId1 vId2 < acc.1 ∧ size1 + p2.2.length < st.kMaxClusterSize then
            (st.viewDists vId1 vId2, (p2.1 : Int))
          else acc)
      ((FLT_MAX : α), (-1 : Int))

/-- One pass of the loop of source lines 473-494. `keys` are the keys of the entries from
the iterator `p1` on; no key is added during a pass, so they are the keys the iterator can
still reach. An undersized cluster is appended to its merge target, if it has one, and
erased; `p1 = clMap.erase(p1)` followed by the `++p1` of the loop then steps over the next
entry. When the erased entry was the last one, `++p1` increments `clMap.end()`, which is
undefined (`none`). The result is the map and the flag `change`. -/
def mergePass (st : Domset α) (xId2vId : List (Nat × Nat)) :
    List Nat → IdxMap → Bool → Option (IdxMap × Bool)
  | [], clMap, change => some (clMap, change)
  | k :: keys, clMap, change =>
    let members := (mapFind k clMap).getD []
    if members.length < st.kMinClusterSize then
      (mergeTarget st xId2vId clMap k members.length).bind fun found =>
        let merged : IdxMap × Bool :=
          if found.2 > -1 then (mapUpdate found.2.toNat (fun l => l ++ members) clMap, true)
          else (clMap, change)
        match keys with
        | [] => none
        | _ :: keys2 => mergePass st xId2vId keys2 (mapErase k merged.1) merged.2
    else mergePass st xId2vId keys clMap change

/-- The loop `do ... while(change)` of source lines 470-495; `fuel` bounds the number of
passes. -/
def enforceMinSize (st : Domset α) (xId2vId : List (Nat × Nat)) :
    Nat → IdxMap → Option IdxMap
  | 0, _ => none
  | fuel + 1, clMap =>
    (mergePass st xId2vId (clMap.map Prod.fst) clMap false).bind fun r =>
      if r.2 then enforceMinSize st xId2vId fuel r.1 else some r.1

/-- The loop `while(true)` of source lines 507-524 on the vector `cl`, with the iterator
`it` as an offset: a full chunk of `kMaxClusterSize` elements is sorted and appended while
`stop < cl.end()`, then the rest is. `fuel` bounds the number of turns; with
`kMaxClusterSize = 0` the loop does not end. -/
def splitLoop (kMaxClusterSize : Nat) (cl : List Nat) :
    Nat → Nat → List (List Nat) → Option (List (List Nat))
  | 0, _, _ => none
  | fuel + 1, it, clusters =>
    let stop := it + kMaxClusterSize
    if stop < cl.length then
      let tmp := (cl.drop it).take kMaxClusterSize
      splitLoop kMaxClusterSize cl fuel stop
        (clusters ++ [tmp.insertionSort (fun a b => a ≤ b)])
    else
      let tmp := cl.drop it
      some (clusters ++ [tmp.insertionSort (fun a b => a ≤ b)])

/-- The body of the loop of source lines 499-529 for one entry of `clMap` with the members
`members`: the members are translated to view ids; a vector above the maximal size is split,
any other one is sorted and appended. -/
def emitCluster (kMaxClusterSize : Nat) (xId2vId : List (Nat × Nat)) (members : List Nat)
    (clusters : List (List Nat)) : Option (List (List Nat)) :=
  let cl := members.map (xGet xId2vId)
  if cl.length > kMaxClusterSize then splitLoop kMaxClusterSize cl (cl.length + 1) 0 clusters
  else some (clusters ++ [cl.insertionSort (fun a b => a ≤ b)])

/-- The loop of source lines 499-529 over the entries of `clMap`. -/
def emitClusters (kMaxClusterSize : Nat) (xId2vId : List (Nat × Nat)) (clMap : IdxMap)
    (clusters : List (List Nat)) : Option (List (List Nat)) :=
  clMap.foldlM (fun cs p => emitCluster kMaxClusterSize xId2vId p.2 cs) clusters

/-- The set `centers` and the cluster map of source lines 436-467, from the similarity
matrix. -/
def clustersOfSimilarity (st : Domset α) (numX : Nat) (S : Nat → Nat → α) :
    List Nat × IdxMap :=
  let E := exemplarMatrix st.lambda numX st.kNumIter S
  let c := findCenters E numX
  (c.1, initialClusters S numX c.1 c.2)

/-- The first part of `computeClustersAP` (source lines 335-467): the set `centers` and the
initial cluster map. It ends the process (`none`) on an empty map. -/
def initialClusterMap (F : Libm α) (st : Domset α) (xId2vId : List (Nat × Nat)) :
    Option (List Nat × IdxMap) :=
  let numX := xId2vId.length
  if numX = 0 then none
  else (getSimilarityMatrix F st xId2vId).map fun S => clustersOfSimilarity st numX S

/-- The cluster map of `computeClustersAP` after the min-size merge (source lines 335-495).
A pass that leaves `change` set has erased an entry, so one pass more than there are entries
is enough fuel. -/
def mergedClusterMap (F : Libm α) (st : Domset α) (xId2vId : List (Nat × Nat)) :
    Option IdxMap :=
  (initialClusterMap F st xId2vId).bind fun c =>
    enforceMinSize st xId2vId (c.2.length + 1) c.2

/-- The method `Domset::computeClustersAP`: the vector `clusters` after the call. -/
def computeClustersAP (F : Libm α) (st : Domset α) (xId2vId : List (Nat × Nat))
    (clusters : List (List Nat)) : Option (List (List Nat)) :=
  (mergedClusterMap F st xId2vId).bind fun clMap =>
    emitClusters st.kMaxClusterSize xId2vId clMap clusters

/-- The method `Domset::clusterViews(xId2vId, minClusterSize, maxClusterSize)`. -/
def clusterViewsOf (F : Libm α) (st : Domset α) (xId2vId : List (Nat × Nat))
    (minClusterSize maxClusterSize : Nat) : Option (Domset α) :=
  let st1 := { st with kMinClusterSize := minClusterSize, kMaxClusterSize := maxClusterSize }
  (computeClustersAP F st1 xId2vId []).map fun clusters =>
    { deNormalizePointCloud st1 with finalClusters := clusters }

/-- The method `Domset::clusterViews(minClusterSize, maxClusterSize)`: the clustering of all
the views, with the identity as `xId2vId`. -/
def clusterViews (F : Libm α) (st : Domset α) (minClusterSize maxClusterSize : Nat) :
    Option (Domset α) :=
  let numC := st.views.length
  let st1 := { st with kMinClusterSize := minClusterSize, kMaxClusterSize := maxClusterSize }
  let xId2vId := (List.range numC).map fun i => (i, i)
  (computeClustersAP F st1 xId2vId []).map fun clusters =>
    { deNormalizePointCloud st1 with finalClusters := clusters }

end Clustering

/-- The method `Domset::computeInformation`: normalize, filter with the voxel size
`kVoxelSize` on the three axes, and compute the view distances. -/
def computeInformation {α : Type} [LinearOrderedField α] [FloorRing α] (F : Libm α)
    (knn : Nat → Nat) (uninit : Nat → Vec3 α) (st : Domset α) : Option (Domset α) :=
  let st1 := normalizePointCloud F knn st
  (voxelGridFilter uninit st1 st1.kVoxelSize st1.kVoxelSize st1.kVoxelSize).bind
    (getAllDistances F)

/-! ## Statement vocabulary and concrete scenes -/

/-- The keys of a map are in strictly ascending order. -/
def KeysSorted (m : IdxMap) : Prop := (m.map Prod.fst).Sorted (fun x y => x < y)

/-- The indices below `n` of the points with the voxel id `id`, in ascending order; `ids`
lists the voxel id of every point. -/
def voxelMembers (ids : List Nat) (id n : Nat) : List Nat :=
  (List.range n).filter fun p => ids.getD p 0 = id

/-- The state of the grouping loop of `voxelGridFilter` after the first `n` points: the keys
of `voxels` are ascending, `voxelIds` lists without repetition the ids seen, and `voxels`
holds under every id seen the indices of its points. -/
def GroupsInv (ids : List Nat) (n : Nat) (g : IdxMap × List Nat) : Prop :=
  KeysSorted g.1 ∧ g.2.Nodup ∧ (∀ id, id ∈ g.2 ↔ ∃ p, p < n ∧ ids.getD p 0 = id) ∧
    ∀ id, mapFind id g.1 = if id ∈ g.2 then some (voxelMembers ids id n) else none

section VoxelVocabulary

variable {α : Type} [LinearOrderedField α] [FloorRing α]

/-- The vector `voxelIds` of `voxelGridFilter` after its first loop: the voxel ids of the
points in the order of their first appearance. -/
def voxelIdsOf (points : List (Point α)) (sizeX sizeY sizeZ : α) : List Nat :=
  (voxelGroups (points.map (voxelId points sizeX sizeY sizeZ))).2

/-- The indices of the points with the voxel id `id`, in ascending order. -/
def voxelMembersOf (points : List (Point α)) (sizeX sizeY sizeZ : α) (id : Nat) : List Nat :=
  voxelMembers (points.map (voxelId points sizeX sizeY sizeZ)) id points.length

end VoxelVocabulary

/-- The least `r` with `n <= r * r`: the exact square root of a perfect square. -/
def natSqrt (n : Nat) : Nat := ((List.range (n + 1)).find? fun r => n ≤ r * r).getD n

/-- Rational stand-ins for the three library functions, to run the embedding on concrete
scenes: `exp` is exact at `0`, `acos` is exact at `1`, and `sqrt` is exact on the squares of
rational numbers. `exp` is positive on the arguments used and at most `1` below `0`. -/
def ratLibm : Libm ℚ where
  exp x := if x ≤ 0 then 1 / (1 - x) else 1 + x
  acos x := if 1 ≤ x then 0 else if x ≤ -1 then 3 else 3 * (1 - x) / 2
  sqrt x := if x ≤ 0 then 0 else (natSqrt x.num.toNat : ℚ) / (natSqrt x.den : ℚ)

/-- Three cameras on a line at `x = 1, 2, 3` and one point at the origin that only the first
camera sees: no two views share a point, so every similarity is `0`. `viewDists` holds the
distances of the camera centres. -/
def lineScene : Domset ℚ where
  points := [⟨⟨0, 0, 0⟩, [0]⟩]
  origPoints := []
  views := [⟨⟨1, 0, 0⟩, [0]⟩, ⟨⟨2, 0, 0⟩, []⟩, ⟨⟨3, 0, 0⟩, []⟩]
  pcCentre := ⟨⟨0, 0, 0⟩, []⟩
  normScale := 1
  viewDists := fun i j => if i ≤ j then ((j - i : Nat) : ℚ) else ((i - j : Nat) : ℚ)
  finalClusters := []
  kMinClusterSize := 2
  kMaxClusterSize := 2
  kNumIter := 2
  lambda := 1 / 2
  kAngleSigma_2 := 1
  kVoxelSize := 1 / 2

/-- Two cameras at `(0,0,1)` and `(0,0,2)` that see one point at the origin along the same
ray, over any ordered field: the view similarity is `exp 0 = 1`, the one distance is the
median, and the similarity of the two views is `1 / 2`. -/
def pairSceneOf (α : Type) [LinearOrderedField α] : Domset α where
  points := [⟨⟨0, 0, 0⟩, [0, 1]⟩]
  origPoints := []
  views := [⟨⟨0, 0, 1⟩, [0]⟩, ⟨⟨0, 0, 2⟩, [0]⟩]
  pcCentre := ⟨⟨0, 0, 0⟩, []⟩
  normScale := 1
  viewDists := fun i j => if i ≤ j then ((j - i : Nat) : α) else ((i - j : Nat) : α)
  finalClusters := []
  kMinClusterSize := 1
  kMaxClusterSize := 2
  kNumIter := 2
  lambda := 0
  kAngleSigma_2 := 1
  kVoxelSize := 1 / 2

/-- The scene `pairSceneOf` over the rational numbers. -/
def pairScene : Domset ℚ := pairSceneOf ℚ

/-- The four points of the voxel-merge scenario, `(0,0,0)`, `(0.01,0,0)`, `(0.02,0,0)` and
`(1,0,0)`, seen by two views that have no view points yet. -/
def voxelScene : Domset ℚ where
  points := [⟨⟨0, 0, 0⟩, [1]⟩, ⟨⟨1 / 100, 0, 0⟩, [0]⟩, ⟨⟨2 / 100, 0, 0⟩, [1, 0]⟩,
    ⟨⟨1, 0, 0⟩, [1]⟩]
  origPoints := []
  views := [⟨⟨0, 0, 1⟩, []⟩, ⟨⟨0, 0, 2⟩, []⟩]
  pcCentre := ⟨⟨0, 0, 0⟩, []⟩
  normScale := 1
  viewDists := fun _ _ => 0
  finalClusters := []
  kMinClusterSize := 1
  kMaxClusterSize := 2
  kNumIter := 2
  lambda := 1 / 2
  kAngleSigma_2 := 1
  kVoxelSize := 1 / 2

/-- Three cameras on the ray `x = y = 0` at `z = 1, 2, 3` and one point at the origin that the
first two cameras see: the similarity of the views `0` and `1` is `1 / 2`, and every
similarity with the view `2`, which sees no point, is `0`. The bounds are
`kMinClusterSize = 2` and `kMaxClusterSize = 3`. -/
def triScene : Domset ℚ where
  points := [⟨⟨0, 0, 0⟩, [0, 1]⟩]
  origPoints := []
  views := [⟨⟨0, 0, 1⟩, [0]⟩, ⟨⟨0, 0, 2⟩, [0]⟩, ⟨⟨0, 0, 3⟩, []⟩]
  pcCentre := ⟨⟨0, 0, 0⟩, []⟩
  normScale := 1
  viewDists := fun i j => if i ≤ j then ((j - i : Nat) : ℚ) else ((i - j : Nat) : ℚ)
  finalClusters := []
  kMinClusterSize := 2
  kMaxClusterSize := 3
  kNumIter := 2
  lambda := 1 / 2
  kAngleSigma_2 := 1
  kVoxelSize := 1 / 2

/-- Three points in the plane `z = 0`, at `(2,0,0)`, `(0,1,0)` and `(0,2,0)`: with the voxel
size `1` they lie in three different cells of the grid. -/
def gridScene : Domset ℚ where
  points := [⟨⟨2, 0, 0⟩, [0]⟩, ⟨⟨0, 1, 0⟩, [1]⟩, ⟨⟨0, 2, 0⟩, [0]⟩]
  origPoints := []
  views := [⟨⟨0, 0, 1⟩, []⟩, ⟨⟨0, 0, 2⟩, []⟩]
  pcCentre := ⟨⟨0, 0, 0⟩, []⟩
  normScale := 1
  viewDists := fun _ _ => 0
  finalClusters := []
  kMinClusterSize := 1
  kMaxClusterSize := 2
  kNumIter := 2
  lambda := 1 / 2
  kAngleSigma_2 := 1
  kVoxelSize := 1

/-- Two cameras at the same place `(0,0,1)` that see one point at the origin: every view
distance is `0`, and so is the median. -/
def coScene : Domset ℚ where
  points := [⟨⟨0, 0, 0⟩, [0, 1]⟩]
  origPoints := []
  views := [⟨⟨0, 0, 1⟩, [0]⟩, ⟨⟨0, 0, 1⟩, [0]⟩]
  pcCentre := ⟨⟨0, 0, 0⟩, []⟩
  normScale := 1
  viewDists := fun _ _ => 0
  finalClusters := []
  kMinClusterSize := 1
  kMaxClusterSize := 2
  kNumIter := 2
  lambda := 0
  kAngleSigma_2 := 1
  kVoxelSize := 1 / 2

/-! ## Theorems -/

section NormalizerTheorems

variable {α : Type} [LinearOrderedField α]

theorem Vec3.roundtrip (p c : Vec3 α) (s : α) (hs : s ≠ 0) :
    (((p.sub c).smul s).sdiv s).add c = p := by
  cases p
  simp [Vec3.sub, Vec3.smul, Vec3.sdiv, Vec3.add, hs]

/-- C6: for every point list, view list, stored centre and non-zero scale, the
normalization transform followed by `deNormalizePointCloud` gives back the state it started
from: every point position and camera centre is restored, and the view lists, the view
points and all other members are unchanged. -/
theorem deNormalize_normalizeTransform (st : Domset α) (hs : st.normScale ≠ 0) :
    deNormalizePointCloud (normalizeTransform st) = st := by
  cases st with
  | mk points origPoints views pcCentre normScale viewDists finalClusters kMin kMax kNumIter
      lambda kAngleSigma_2 kVoxelSize =>
    simp only [deNormalizePointCloud, normalizeTransform, List.map_map]
    have hp : points.map ((fun p : Point α =>
        ({ p with pos := (p.pos.sdiv normScale).add pcCentre.pos } : Point α)) ∘
        fun p => { p with pos := (p.pos.sub pcCentre.pos).smul normScale }) = points := by
      conv_rhs => rw [← List.map_id points]
      apply List.map_congr_left
      intro p _
      cases p
      simp only [Function.comp, id]
      rw [Vec3.roundtrip _ _ _ hs]
    have hv : views.map ((fun v : View α =>
        ({ v with trans := (v.trans.sdiv normScale).add pcCentre.pos } : View α)) ∘
        fun v => { v with trans := (v.trans.sub pcCentre.pos).smul normScale }) = views := by
      conv_rhs => rw [← List.map_id views]
      apply List.map_congr_left
      intro v _
      cases v
      simp only [Function.comp, id]
      rw [Vec3.roundtrip _ _ _ hs]
    simp only at hs
    rw [hp, hv]

end NormalizerTheorems

section MapLemmas

theorem mapFind_mapUpdate_ne (j k : Nat) (f : List Nat → List Nat) (hjk : j ≠ k) :
    ∀ m : IdxMap, mapFind k (mapUpdate j f m) = mapFind k m := by
  intro m
  induction m with
  | nil => simp [mapUpdate, mapFind, hjk]
  | cons e m ih =>
    simp only [mapUpdate]
    split
    · simp [mapFind, hjk]
    · split
      · rename_i h1 h2
        have : ¬ e.1 = k := fun h => hjk (h2.trans h)
        simp [mapFind, this]
      · simp only [mapFind, ih]

theorem mem_of_mapFind (k : Nat) (v : List Nat) :
    ∀ m : IdxMap, mapFind k m = some v → (k, v) ∈ m := by
  intro m
  induction m with
  | nil => simp [mapFind]
  | cons e m ih =>
    simp only [mapFind]
    split
    · rename_i h
      intro hv
      have : e = (k, v) := by
        cases e; simp only [Option.some.injEq] at hv; simp_all
      simp [this]
    · intro hv
      exact List.mem_cons_of_mem _ (ih hv)

end MapLemmas

section MergeLemmas

variable {α : Type} [LinearOrderedField α]

theorem mergeTarget_fold (st : Domset α) (xId2vId : List (Nat × Nat)) (clMap : IdxMap)
    (k1 size1 vId1 : Nat) :
    ∀ (l : List (Nat × List Nat)) (acc r : α × Int), (∀ p ∈ l, p ∈ clMap) →
      l.foldlM
        (fun acc p2 =>
          if k1 = p2.1 then some acc
          else (xAt xId2vId p2.1).map fun vId2 =>
            if st.viewDists vId1 vId2 < acc.1 ∧ size1 + p2.2.length < st.kMaxClusterSize then
              (st.viewDists vId1 vId2, (p2.1 : Int))
            else acc)
        acc = some r →
      (acc.2 = -1 ∨ ∃ p2 ∈ clMap, p2.1 ≠ k1 ∧ (p2.1 : Int) = acc.2 ∧
        size1 + p2.2.length < st.kMaxClusterSize) →
      (r.2 = -1 ∨ ∃ p2 ∈ clMap, p2.1 ≠ k1 ∧ (p2.1 : Int) = r.2 ∧
        size1 + p2.2.length < st.kMaxClusterSize) := by
  intro l
  induction l with
  | nil =>
    intro acc r _ h hacc
    simp only [List.foldlM_nil] at h
    cases Option.some.inj h
    exact hacc
  | cons p l ih =>
    intro acc r hl h hacc
    simp only [List.foldlM_cons] at h
    have hl2 : ∀ q ∈ l, q ∈ clMap := fun q hq => hl q (List.mem_cons_of_mem _ hq)
    by_cases hk : k1 = p.1
    · simp only [hk, if_true] at h
      exact ih acc r hl2 (by simpa [hk] using h) hacc
    · simp only [hk, if_false] at h
      cases hx : xAt xId2vId p.1 with
      | none => simp [hx] at h
      | some vId2 =>
        rw [hx] at h
        simp only [Option.map_some', Option.some_bind] at h
        refine ih _ r hl2 h ?_
        split
        · rename_i hc
          exact Or.inr ⟨p, hl p (List.mem_cons_self _ _), fun h' => hk h'.symm, rfl, hc.2⟩
        · exact hacc

/-- A merge target found by `mergeTarget` is the key of another entry of the map, and the
two clusters together are below `kMaxClusterSize`. -/
theorem mergeTarget_found (st : Domset α) (xId2vId : List (Nat × Nat)) (clMap : IdxMap)
    (k1 size1 : Nat) (found : α × Int) (h : mergeTarget st xId2vId clMap k1 size1 = some found)
    (hpos : found.2 > -1) :
    ∃ p2 ∈ clMap, p2.1 ≠ k1 ∧ (p2.1 : Int) = found.2 ∧
      size1 + p2.2.length < st.kMaxClusterSize := by
  simp only [mergeTarget] at h
  cases hx : xAt xId2vId k1 with
  | none => simp [hx] at h
  | some vId1 =>
    rw [hx] at h
    simp only [Option.some_bind] at h
    rcases mergeTarget_fold st xId2vId clMap k1 size1 vId1 clMap _ found (fun p hp => hp) h
      (Or.inl rfl) with h1 | h1
    · omega
    · exact h1

end MergeLemmas

section ClusteringTheorems

variable {α : Type} [LinearOrderedField α]

theorem lookup_of_keys_range :
    ∀ (l : List (Nat × Nat)) (s i : Nat), l.map Prod.fst = List.range' s l.length →
      i < l.length → l.lookup (s + i) = (l.get? i).map Prod.snd := by
  intro l
  induction l with
  | nil => intro s i _ hi; simp at hi
  | cons e l ih =>
    intro s i hk hi
    simp only [List.map_cons, List.length_cons, List.range'_succ, List.cons.injEq] at hk
    cases i with
    | zero =>
      cases e
      simp only [Nat.add_zero, List.get?_cons_zero, Option.map_some']
      simp only at hk
      simp [List.lookup, hk.1]
    | succ i =>
      cases e with
      | mk a b =>
      simp only at hk
      have hne : (s + (i + 1) == a) = false := by
        simp only [beq_eq_false_iff_ne, ne_eq]
        omega
      simp only [List.lookup, hne, List.get?_cons_succ]
      have := ih (s + 1) i hk.2 (by simpa using hi)
      rw [← this]
      congr 1
      omega

theorem xGet_of_keys (xId2vId : List (Nat × Nat))
    (hkeys : xId2vId.map Prod.fst = List.range xId2vId.length) (i : Nat)
    (hi : i < xId2vId.length) :
    xId2vId.lookup i = some ((xId2vId.map Prod.snd).get ⟨i, by simpa using hi⟩) := by
  have h := lookup_of_keys_range xId2vId 0 i (by rw [hkeys, List.range_eq_range']) hi
  rw [Nat.zero_add] at h
  rw [h, List.get?_eq_get hi]
  simp

end ClusteringTheorems

section SplitTheorems

variable {α : Type} [LinearOrderedField α]

end SplitTheorems

section FinalizerTheorems

variable {α : Type} [LinearOrderedField α]

end FinalizerTheorems

section ContainerLemmas

theorem mem_setInsert (a x : Nat) : ∀ l : List Nat, x ∈ setInsert a l ↔ x = a ∨ x ∈ l := by
  intro l
  induction l with
  | nil => simp [setInsert]
  | cons b l ih =>
    simp only [setInsert]
    split
    · simp
    · split
      · rename_i h1 h2
        subst h2
        simp
      · simp only [List.mem_cons, ih]
        tauto

theorem setInsert_sorted (a : Nat) :
    ∀ l : List Nat, l.Sorted (fun x y => x < y) → (setInsert a l).Sorted (fun x y => x < y) := by
  intro l
  induction l with
  | nil => intro _; simp [setInsert]
  | cons b l ih =>
    intro h
    simp only [setInsert]
    have hb := List.sorted_cons.1 h
    split
    · rename_i hab
      refine List.sorted_cons.2 ⟨?_, h⟩
      intro y hy
      rcases List.mem_cons.1 hy with rfl | hy
      · exact hab
      · exact lt_trans hab (hb.1 y hy)
    · split
      · exact h
      · rename_i h1 h2
        refine List.sorted_cons.2 ⟨?_, ih hb.2⟩
        intro y hy
        rcases (mem_setInsert a y l).1 hy with rfl | hy
        · omega
        · exact hb.1 y hy

theorem mapFind_none_of_lt (k : Nat) :
    ∀ m : IdxMap, (∀ e ∈ m, k < e.1) → mapFind k m = none := by
  intro m
  induction m with
  | nil => intro _; rfl
  | cons e m ih =>
    intro h
    have h1 := h e (List.mem_cons_self _ _)
    have : ¬ e.1 = k := by omega
    simp only [mapFind, this, if_false]
    exact ih (fun q hq => h q (List.mem_cons_of_mem _ hq))

theorem mapUpdate_keys (k : Nat) (f : List Nat → List Nat) (x : Nat) :
    ∀ m : IdxMap, x ∈ (mapUpdate k f m).map Prod.fst ↔ x = k ∨ x ∈ m.map Prod.fst := by
  intro m
  induction m with
  | nil => simp [mapUpdate]
  | cons e m ih =>
    simp only [mapUpdate]
    split
    · simp
    · split
      · rename_i h1 h2
        simp only [List.map_cons, List.mem_cons]
        rw [h2]
        tauto
      · simp only [List.map_cons, List.mem_cons, ih]
        tauto

theorem mapUpdate_sorted (k : Nat) (f : List Nat → List Nat) :
    ∀ m : IdxMap, KeysSorted m → KeysSorted (mapUpdate k f m) := by
  intro m
  induction m with
  | nil => intro _; simp [mapUpdate, KeysSorted]
  | cons e m ih =>
    intro h
    simp only [KeysSorted, List.map_cons] at h
    have he := List.sorted_cons.1 h
    simp only [mapUpdate]
    split
    · rename_i hlt
      simp only [KeysSorted, List.map_cons]
      refine List.sorted_cons.2 ⟨?_, h⟩
      intro y hy
      rcases List.mem_cons.1 hy with rfl | hy
      · exact hlt
      · exact lt_trans hlt (he.1 y hy)
    · split
      · simpa [KeysSorted] using h
      · rename_i h1 h2
        simp only [KeysSorted, List.map_cons]
        refine List.sorted_cons.2 ⟨?_, ih he.2⟩
        intro y hy
        rcases (mapUpdate_keys k f y m).1 hy with rfl | hy
        · omega
        · exact he.1 y hy

theorem mapFind_mapUpdate_self (k : Nat) (f : List Nat → List Nat) :
    ∀ m : IdxMap, KeysSorted m →
      mapFind k (mapUpdate k f m) = some (f ((mapFind k m).getD [])) := by
  intro m
  induction m with
  | nil => intro _; simp [mapUpdate, mapFind]
  | cons e m ih =>
    intro h
    simp only [KeysSorted, List.map_cons] at h
    have he := List.sorted_cons.1 h
    simp only [mapUpdate]
    split
    · rename_i hlt
      have hnone : mapFind k (e :: m) = none := by
        apply mapFind_none_of_lt
        intro q hq
        rcases List.mem_cons.1 hq with rfl | hq
        · exact hlt
        · exact lt_trans hlt (he.1 q.1 (List.mem_map_of_mem _ hq))
      rw [hnone]
      simp [mapFind]
    · split
      · rename_i h1 h2
        simp [mapFind, h2.symm]
      · rename_i h1 h2
        have : ¬ e.1 = k := fun h' => h2 h'.symm
        simp only [mapFind, this, if_false]
        exact ih he.2

end ContainerLemmas

section FuelLemmas

variable {α : Type} [LinearOrderedField α]

theorem mapUpdate_length_of_mem (k : Nat) (f : List Nat → List Nat) :
    ∀ m : IdxMap, KeysSorted m → k ∈ m.map Prod.fst → (mapUpdate k f m).length = m.length := by
  intro m
  induction m with
  | nil => intro _ h; simp at h
  | cons e m ih =>
    intro hs hk
    simp only [KeysSorted, List.map_cons] at hs
    have he := List.sorted_cons.1 hs
    simp only [mapUpdate]
    split
    · rename_i hlt
      exfalso
      rcases List.mem_cons.1 hk with h | h
      · omega
      · have := he.1 k h
        omega
    · split
      · simp
      · rename_i h1 h2
        simp only [List.length_cons, Nat.add_right_cancel_iff]
        apply ih he.2
        rcases List.mem_cons.1 hk with h | h
        · exact absurd h h2
        · exact h

theorem mapErase_length_le (k : Nat) : ∀ m : IdxMap, (mapErase k m).length ≤ m.length := by
  intro m
  induction m with
  | nil => simp [mapErase]
  | cons e m ih =>
    simp only [mapErase]
    split
    · simp
    · simpa using ih

theorem mapErase_length_of_mem (k : Nat) :
    ∀ m : IdxMap, k ∈ m.map Prod.fst → (mapErase k m).length + 1 = m.length := by
  intro m
  induction m with
  | nil => intro h; simp at h
  | cons e m ih =>
    intro hk
    simp only [mapErase]
    split
    · simp
    · rename_i hne
      simp only [List.length_cons, Nat.add_right_cancel_iff]
      apply ih
      rcases List.mem_cons.1 hk with h | h
      · exact absurd h.symm hne
      · exact h

theorem mapErase_keys_sub (k x : Nat) :
    ∀ m : IdxMap, x ∈ (mapErase k m).map Prod.fst → x ∈ m.map Prod.fst := by
  intro m
  induction m with
  | nil => simp [mapErase]
  | cons e m ih =>
    simp only [mapErase]
    split
    · intro h; exact List.mem_cons_of_mem _ h
    · intro h
      rcases List.mem_cons.1 h with h | h
      · exact List.mem_cons.2 (Or.inl h)
      · exact List.mem_cons_of_mem _ (ih h)

theorem mapErase_keys_of_ne (k x : Nat) (hx : x ≠ k) :
    ∀ m : IdxMap, x ∈ m.map Prod.fst → x ∈ (mapErase k m).map Prod.fst := by
  intro m
  induction m with
  | nil => simp
  | cons e m ih =>
    intro h
    simp only [mapErase]
    split
    · rename_i hek
      rcases List.mem_cons.1 h with h | h
      · exact absurd (h.trans hek) hx
      · exact h
    · rcases List.mem_cons.1 h with h | h
      · exact List.mem_cons.2 (Or.inl h)
      · exact List.mem_cons_of_mem _ (ih h)

theorem mapErase_sorted (k : Nat) : ∀ m : IdxMap, KeysSorted m → KeysSorted (mapErase k m) := by
  intro m
  induction m with
  | nil => intro h; simpa [mapErase] using h
  | cons e m ih =>
    intro hs
    simp only [KeysSorted, List.map_cons] at hs
    have he := List.sorted_cons.1 hs
    simp only [mapErase]
    split
    · exact he.2
    · simp only [KeysSorted, List.map_cons]
      exact List.sorted_cons.2 ⟨fun y hy => he.1 y (mapErase_keys_sub k y m hy), ih he.2⟩

/-- One pass of the merge loop keeps the keys ascending and adds no entry; when it sets
`change` it has erased an entry. -/
theorem mergePass_length (st : Domset α) (xId2vId : List (Nat × Nat)) :
    ∀ (n : Nat) (keys : List Nat) (m : IdxMap) (ch : Bool) (r : IdxMap × Bool),
      keys.length ≤ n → KeysSorted m → keys.Nodup → (∀ k ∈ keys, k ∈ m.map Prod.fst) →
      mergePass st xId2vId keys m ch = some r →
      KeysSorted r.1 ∧ r.1.length ≤ m.length ∧
        (r.2 = true → ch = true ∨ r.1.length < m.length) := by
  intro n
  induction n with
  | zero =>
    intro keys m ch r hlen hs _ _ h
    have : keys = [] := List.length_eq_zero.1 (Nat.le_zero.1 hlen)
    subst this
    simp only [mergePass] at h
    cases Option.some.inj h
    exact ⟨hs, le_refl _, fun h => Or.inl h⟩
  | succ n ih =>
    intro keys m ch r hlen hs hnd hin h
    cases keys with
    | nil =>
      simp only [mergePass] at h
      cases Option.some.inj h
      exact ⟨hs, le_refl _, fun h => Or.inl h⟩
    | cons k keys =>
      simp only [mergePass] at h
      simp only [List.length_cons] at hlen
      have hnd1 := List.nodup_cons.1 hnd
      split at h
      · cases hf : mergeTarget st xId2vId m k ((mapFind k m).getD []).length with
        | none => simp [hf] at h
        | some found =>
          rw [hf] at h
          simp only [Option.some_bind] at h
          cases keys with
          | nil => simp at h
          | cons k2 keys2 =>
            simp only at h
            simp only [List.length_cons] at hlen
            have hnd2 := List.nodup_cons.1 hnd1.2
            have hk : k ∈ m.map Prod.fst := hin k (List.mem_cons_self _ _)
            by_cases hpos : found.2 > -1
            · simp only [hpos, if_true] at h
              obtain ⟨p2, hp2, hne, heq, _⟩ := mergeTarget_found st xId2vId m k _ found hf hpos
              have hj : found.2.toNat = p2.1 := by omega
              have hjm : found.2.toNat ∈ m.map Prod.fst := by
                rw [hj]; exact List.mem_map_of_mem _ hp2
              have hs1 := mapUpdate_sorted found.2.toNat
                (fun l => l ++ (mapFind k m).getD []) m hs
              have hl1 := mapUpdate_length_of_mem found.2.toNat
                (fun l => l ++ (mapFind k m).getD []) m hs hjm
              have hk1 : k ∈ (mapUpdate found.2.toNat
                  (fun l => l ++ (mapFind k m).getD []) m).map Prod.fst :=
                (mapUpdate_keys _ _ _ _).2 (Or.inr hk)
              have hl2 := mapErase_length_of_mem k _ hk1
              obtain ⟨hsr, hlr, _⟩ := ih keys2 _ true r (by omega) (mapErase_sorted k _ hs1)
                hnd2.2
                (fun x hx => by
                  apply mapErase_keys_of_ne
                  · intro hxk
                    exact hnd1.1 (hxk ▸ List.mem_cons_of_mem _ hx)
                  · exact (mapUpdate_keys _ _ _ _).2
                      (Or.inr (hin x (List.mem_cons_of_mem _ (List.mem_cons_of_mem _ hx)))))
                h
              exact ⟨hsr, by omega, fun _ => Or.inr (by omega)⟩
            · simp only [hpos, if_false] at h
              have hl2 := mapErase_length_of_mem k m hk
              obtain ⟨hsr, hlr, hch⟩ := ih keys2 _ ch r (by omega) (mapErase_sorted k _ hs)
                hnd2.2
                (fun x hx => by
                  apply mapErase_keys_of_ne
                  · intro hxk
                    exact hnd1.1 (hxk ▸ List.mem_cons_of_mem _ hx)
                  · exact hin x (List.mem_cons_of_mem _ (List.mem_cons_of_mem _ hx)))
                h
              refine ⟨hsr, by omega, fun hr => ?_⟩
              rcases hch hr with h1 | h1
              · exact Or.inl h1
              · exact Or.inr (by omega)
      · exact ih keys m ch r (by omega) hs hnd1.2
          (fun x hx => hin x (List.mem_cons_of_mem _ hx)) h

/-- The loop `do ... while(change)` never runs out of fuel when it is given more fuel than
there are entries: any two such amounts of fuel give the same result. -/
theorem enforceMinSize_fuel (st : Domset α) (xId2vId : List (Nat × Nat)) :
    ∀ (fuel fuel2 : Nat) (m : IdxMap), KeysSorted m → m.length < fuel → m.length < fuel2 →
      enforceMinSize st xId2vId fuel m = enforceMinSize st xId2vId fuel2 m := by
  intro fuel
  induction fuel with
  | zero => intro fuel2 m _ h; omega
  | succ fuel ih =>
    intro fuel2 m hs h1 h2
    cases fuel2 with
    | zero => omega
    | succ fuel2 =>
      simp only [enforceMinSize]
      cases hp : mergePass st xId2vId (m.map Prod.fst) m false with
      | none => rfl
      | some r =>
        simp only [Option.some_bind]
        by_cases hr : r.2 = true
        · simp only [hr, if_true]
          obtain ⟨hsr, hlr, hch⟩ := mergePass_length st xId2vId _ _ m false r le_rfl hs
            (hs.nodup) (fun k hk => hk) hp
          have hlt : r.1.length < m.length := by
            rcases hch hr with h | h
            · exact absurd h (by simp)
            · exact h
          exact ih fuel2 r.1 hsr (by omega) (by omega)
        · simp only [hr]
          rfl

theorem keysSorted_fold_mapUpdate {β : Type} (l : List β) (key : IdxMap → β → Nat)
    (f : β → List Nat → List Nat) :
    ∀ m : IdxMap, KeysSorted m →
      KeysSorted (l.foldl (fun m b => mapUpdate (key m b) (f b) m) m) := by
  induction l with
  | nil => intro m h; simpa using h
  | cons b l ih => intro m h; exact ih _ (mapUpdate_sorted _ _ _ h)

theorem initialClusters_sorted (S : Nat → Nat → α) (numX : Nat) (centers : List Nat)
    (idxForI : Nat) : KeysSorted (initialClusters S numX centers idxForI) := by
  simp only [initialClusters]
  have h0 : KeysSorted (centers.foldl (fun m c => mapUpdate c (fun _ => []) m) []) :=
    keysSorted_fold_mapUpdate centers (fun _ c => c) (fun _ _ => []) [] (by simp [KeysSorted])
  have hfold : ∀ (l : List Nat) (acc : IdxMap × Nat), KeysSorted acc.1 →
      KeysSorted (l.foldl
        (fun acc i =>
          let idx := assignKey S centers i acc.2
          (mapUpdate idx (fun l => l ++ [i]) acc.1, idx))
        acc).1 := by
    intro l
    induction l with
    | nil => intro acc h; simpa using h
    | cons i l ih => intro acc h; exact ih _ (mapUpdate_sorted _ _ _ h)
  exact hfold _ _ h0

/-- The fuel that `mergedClusterMap` gives the merge loop is enough: more fuel gives the same
cluster map. -/
theorem mergedClusterMap_fuel (F : Libm α) (st : Domset α) (xId2vId : List (Nat × Nat))
    (c : List Nat × IdxMap) (fuel : Nat) (hc : initialClusterMap F st xId2vId = some c)
    (hfuel : c.2.length < fuel) :
    enforceMinSize st xId2vId fuel c.2 = mergedClusterMap F st xId2vId := by
  have hs : KeysSorted c.2 := by
    simp only [initialClusterMap] at hc
    split at hc
    · simp at hc
    · cases hS : getSimilarityMatrix F st xId2vId with
      | none => simp [hS] at hc
      | some S =>
        rw [hS] at hc
        simp only [Option.map_some', Option.some.injEq] at hc
        subst hc
        exact initialClusters_sorted S _ _ _
  simp only [mergedClusterMap, hc, Option.some_bind]
  exact enforceMinSize_fuel st xId2vId fuel _ c.2 hs hfuel (Nat.lt_succ_self _)

end FuelLemmas

section VoxelGroupLemmas

theorem voxelMembers_succ (ids : List Nat) (id n : Nat) :
    voxelMembers ids id (n + 1) =
      voxelMembers ids id n ++ (if ids.getD n 0 = id then [n] else []) := by
  simp only [voxelMembers, List.range_succ, List.filter_append]
  congr 1
  by_cases h : ids.getD n 0 = id
  · rw [if_pos h, List.filter_cons_of_pos (by simpa using h), List.filter_nil]
  · rw [if_neg h, List.filter_cons_of_neg (by simpa using h), List.filter_nil]

theorem voxelMembers_eq_nil (ids : List Nat) (id n : Nat)
    (h : ¬ ∃ p, p < n ∧ ids.getD p 0 = id) : voxelMembers ids id n = [] := by
  simp only [voxelMembers, List.filter_eq_nil_iff, List.mem_range]
  intro p hp hid
  exact h ⟨p, hp, by simpa using hid⟩

theorem voxelAdd_inv (ids : List Nat) (n : Nat) (g : IdxMap × List Nat)
    (h : GroupsInv ids n g) : GroupsInv ids (n + 1) (voxelAdd g (ids.getD n 0) n) := by
  obtain ⟨hs, hnd, hmem, hfind⟩ := h
  have hseen : ∀ id, (∃ p, p < n + 1 ∧ ids.getD p 0 = id) ↔
      ((∃ p, p < n ∧ ids.getD p 0 = id) ∨ ids.getD n 0 = id) := by
    intro id
    constructor
    · rintro ⟨p, hp, hid⟩
      rcases Nat.lt_succ_iff_lt_or_eq.1 hp with hp | rfl
      · exact Or.inl ⟨p, hp, hid⟩
      · exact Or.inr hid
    · rintro (⟨p, hp, hid⟩ | hid)
      · exact ⟨p, Nat.lt_succ_of_lt hp, hid⟩
      · exact ⟨n, Nat.lt_succ_self n, hid⟩
  by_cases hnew : ids.getD n 0 ∈ g.2
  · -- the id was seen before
    have hf := hfind (ids.getD n 0)
    rw [if_pos hnew] at hf
    have hne : ¬ mapFind (ids.getD n 0) g.1 = none := by rw [hf]; simp
    simp only [voxelAdd, hne, if_false]
    refine ⟨mapUpdate_sorted _ _ _ hs, hnd, ?_, ?_⟩
    · intro id
      rw [hseen, ← hmem]
      constructor
      · exact Or.inl
      · rintro (h | h)
        · exact h
        · exact h ▸ hnew
    · intro id
      by_cases hid : ids.getD n 0 = id
      · subst hid
        rw [mapFind_mapUpdate_self _ _ _ hs, hf, if_pos hnew, voxelMembers_succ]
        simp
      · rw [mapFind_mapUpdate_ne _ _ _ hid, hfind id, voxelMembers_succ, if_neg hid,
          List.append_nil]
  · -- a new id
    have hf := hfind (ids.getD n 0)
    rw [if_neg hnew] at hf
    simp only [voxelAdd, hf, if_true]
    have hs1 := mapUpdate_sorted (ids.getD n 0) (fun _ => []) g.1 hs
    refine ⟨mapUpdate_sorted _ _ _ hs1, ?_, ?_, ?_⟩
    · exact List.Nodup.append hnd (List.nodup_singleton _) (by simpa using hnew)
    · intro id
      rw [hseen, ← hmem]
      simp only [List.mem_append, List.mem_singleton]
      constructor
      · rintro (h | h)
        · exact Or.inl h
        · exact Or.inr h.symm
      · rintro (h | h)
        · exact Or.inl h
        · exact Or.inr h.symm
    · intro id
      by_cases hid : ids.getD n 0 = id
      · subst hid
        rw [mapFind_mapUpdate_self _ _ _ hs1, mapFind_mapUpdate_self _ _ _ hs,
          voxelMembers_succ]
        have hnil : voxelMembers ids (ids.getD n 0) n = [] :=
          voxelMembers_eq_nil ids _ n (fun h => hnew ((hmem _).2 h))
        rw [hnil]
        simp
      · rw [mapFind_mapUpdate_ne _ _ _ hid, mapFind_mapUpdate_ne _ _ _ hid, hfind id,
          voxelMembers_succ, if_neg hid, List.append_nil]
        have : (id ∈ g.2 ++ [ids.getD n 0]) ↔ id ∈ g.2 := by
          simp only [List.mem_append, List.mem_singleton]
          constructor
          · rintro (h | h)
            · exact h
            · exact absurd h.symm hid
          · exact Or.inl
        by_cases hin : id ∈ g.2
        · rw [if_pos hin, if_pos (this.2 hin)]
        · rw [if_neg hin, if_neg (fun h => hin (this.1 h))]

theorem voxelGroups_fold (ids : List Nat) :
    ∀ n, GroupsInv ids n
      ((List.range n).foldl (fun acc p => voxelAdd acc (ids.getD p 0) p) ([], [])) := by
  intro n
  induction n with
  | zero =>
    refine ⟨by simp [KeysSorted], by simp, ?_, ?_⟩
    · intro id; simp
    · intro id; simp [mapFind]
  | succ n ih =>
    rw [List.range_succ, List.foldl_append]
    exact voxelAdd_inv ids n _ ih

theorem voxelGroups_inv (ids : List Nat) : GroupsInv ids ids.length (voxelGroups ids) :=
  voxelGroups_fold ids ids.length

end VoxelGroupLemmas

section ViewSetLemmas

variable {α : Type}

theorem setInsert_fold_sorted :
    ∀ (l vl : List Nat), vl.Sorted (fun x y => x < y) →
      (l.foldl (fun vl j => setInsert j vl) vl).Sorted (fun x y => x < y) := by
  intro l
  induction l with
  | nil => intro vl h; simpa using h
  | cons j l ih => intro vl h; exact ih _ (setInsert_sorted j vl h)

theorem mem_setInsert_fold (x : Nat) :
    ∀ (l vl : List Nat), x ∈ l.foldl (fun vl j => setInsert j vl) vl ↔ x ∈ l ∨ x ∈ vl := by
  intro l
  induction l with
  | nil => intro vl; simp
  | cons j l ih =>
    intro vl
    simp only [List.foldl_cons, ih, mem_setInsert, List.mem_cons]
    tauto

theorem voxelViewSet_fold_sorted (points : List (Point α)) :
    ∀ (members vl : List Nat), vl.Sorted (fun x y => x < y) →
      (members.foldl
        (fun vl p => ((points.get? p).map (fun pt => pt.viewList)).getD [] |>.foldl
          (fun vl j => setInsert j vl) vl) vl).Sorted (fun x y => x < y) := by
  intro members
  induction members with
  | nil => intro vl h; simpa using h
  | cons p members ih => intro vl h; exact ih _ (setInsert_fold_sorted _ vl h)

theorem mem_voxelViewSet_fold (points : List (Point α)) (x : Nat) :
    ∀ (members vl : List Nat),
      x ∈ members.foldl
        (fun vl p => ((points.get? p).map (fun pt => pt.viewList)).getD [] |>.foldl
          (fun vl j => setInsert j vl) vl) vl ↔
      x ∈ vl ∨ ∃ p ∈ members, ∃ pt, points.get? p = some pt ∧ x ∈ pt.viewList := by
  intro members
  induction members with
  | nil => intro vl; simp
  | cons p members ih =>
    intro vl
    rw [List.foldl_cons, ih, mem_setInsert_fold]
    simp only [List.mem_cons, List.get?_eq_getElem?]
    constructor
    · rintro ((h | h) | ⟨q, hq, pt, hpt, hx⟩)
      · cases hg : points[p]? with
        | none => simp [hg] at h
        | some pt =>
          rw [hg] at h
          exact Or.inr ⟨p, Or.inl rfl, pt, hg, by simpa using h⟩
      · exact Or.inl h
      · exact Or.inr ⟨q, Or.inr hq, pt, hpt, hx⟩
    · rintro (h | ⟨q, rfl | hq, pt, hpt, hx⟩)
      · exact Or.inl (Or.inr h)
      · exact Or.inl (Or.inl (by rw [hpt]; simpa using hx))
      · exact Or.inr ⟨q, hq, pt, hpt, hx⟩

/-- The view list of a new point is strictly ascending. -/
theorem voxelViewSet_sorted (points : List (Point α)) (members : List Nat) :
    (voxelViewSet points members).Sorted (fun x y => x < y) :=
  voxelViewSet_fold_sorted points members [] List.sorted_nil

/-- The view list of a new point holds exactly the view ids of its member points. -/
theorem mem_voxelViewSet (points : List (Point α)) (members : List Nat) (x : Nat) :
    x ∈ voxelViewSet points members ↔
      ∃ p ∈ members, ∃ pt, points.get? p = some pt ∧ x ∈ pt.viewList := by
  simp only [voxelViewSet]
  rw [mem_voxelViewSet_fold]
  simp

end ViewSetLemmas

section VoxelEmitLemmas

variable {α : Type} [LinearOrderedField α]

/-- The second loop of `voxelGridFilter`, when no voxel in `voxelIds` is empty: after `n`
turns `newPoints` holds one point per voxel, in the order of `voxelIds`, and the views have
received the back edges of these points. -/
theorem voxelEmit_fold (uninit : Nat → Vec3 α) (points : List (Point α)) (voxels : IdxMap)
    (voxelIds : List Nat) (views : List (View α))
    (hne : ∀ vmId, vmId < voxelIds.length →
      ((mapFind (voxelIds.getD vmId 0) voxels).getD []).length ≠ 0) :
    ∀ n, n ≤ voxelIds.length → (List.range n).foldl
        (fun acc vmId => voxelEmit uninit points voxels acc vmId (voxelIds.getD vmId 0))
        (views, []) =
      ((List.range n).foldl
        (fun vs i => addBackEdges vs
          (voxelViewSet points ((mapFind (voxelIds.getD i 0) voxels).getD [])) i) views,
       (List.range n).map fun vmId =>
        (⟨voxelPos points ((mapFind (voxelIds.getD vmId 0) voxels).getD []) (uninit vmId),
          voxelViewSet points ((mapFind (voxelIds.getD vmId 0) voxels).getD [])⟩ : Point α)) := by
  intro n
  induction n with
  | zero => intro _; simp
  | succ n ih =>
    intro hn
    rw [List.range_succ, List.foldl_append, ih (by omega)]
    simp only [List.foldl_cons, List.foldl_nil, voxelEmit, hne n (by omega), if_false,
      List.length_map, List.length_range, List.map_append, List.map_cons, List.map_nil,
      List.foldl_append]

end VoxelEmitLemmas

section VoxelPosLemmas

variable {α : Type} [LinearOrderedField α]

theorem voxelSum_eq (points : List (Point α)) :
    ∀ (members : List Nat) (pos0 : Vec3 α),
      voxelSum points members pos0 =
      ⟨pos0.x + (members.map fun p => ((points.get? p).map fun pt => pt.pos.x).getD 0).sum,
       pos0.y + (members.map fun p => ((points.get? p).map fun pt => pt.pos.y).getD 0).sum,
       pos0.z + (members.map fun p => ((points.get? p).map fun pt => pt.pos.z).getD 0).sum⟩ := by
  intro members
  induction members with
  | nil => intro pos0; simp [voxelSum]
  | cons p members ih =>
    intro pos0
    have hstep : voxelSum points (p :: members) pos0 =
        voxelSum points members
          (match points.get? p with
            | some pt => pos0.add pt.pos
            | none => pos0) := rfl
    rw [hstep, ih]
    cases hp : points.get? p with
    | none =>
      have hp2 : points[p]? = none := by rw [← List.get?_eq_getElem?]; exact hp
      simp [hp2]
    | some pt =>
      have hp2 : points[p]? = some pt := by rw [← List.get?_eq_getElem?]; exact hp
      simp [Vec3.add, add_assoc, hp2]

/-- The position the filter gives the new point of a voxel: the sum of the member positions
and of what the local `pos` held before, divided by the member count. It is the arithmetic
mean of the member positions when `pos` held zero. -/
theorem voxelPos_eq (points : List (Point α)) (members : List Nat) (pos0 : Vec3 α) :
    voxelPos points members pos0 =
      ⟨(pos0.x + (members.map fun p => ((points.get? p).map fun pt => pt.pos.x).getD 0).sum) /
          (members.length : α),
       (pos0.y + (members.map fun p => ((points.get? p).map fun pt => pt.pos.y).getD 0).sum) /
          (members.length : α),
       (pos0.z + (members.map fun p => ((points.get? p).map fun pt => pt.pos.z).getD 0).sum) /
          (members.length : α)⟩ := by
  unfold voxelPos
  rw [voxelSum_eq]
  rfl

end VoxelPosLemmas

section VoxelFilterTheorems

variable {α : Type} [LinearOrderedField α] [FloorRing α]

theorem mem_voxelMembers (ids : List Nat) (id n p : Nat) :
    p ∈ voxelMembers ids id n ↔ p < n ∧ ids.getD p 0 = id := by
  simp [voxelMembers, List.mem_filter]

/-- The members of the voxels in `voxelIds`, as `voxels` holds them after the first loop. -/
theorem voxelGroups_members (ids : List Nat) (vmId : Nat)
    (h : vmId < (voxelGroups ids).2.length) :
    (mapFind ((voxelGroups ids).2.getD vmId 0) (voxelGroups ids).1).getD [] =
        voxelMembers ids ((voxelGroups ids).2.getD vmId 0) ids.length ∧
      (voxelMembers ids ((voxelGroups ids).2.getD vmId 0) ids.length).length ≠ 0 := by
  obtain ⟨_, _, hmem, hfind⟩ := voxelGroups_inv ids
  have hin : (voxelGroups ids).2.getD vmId 0 ∈ (voxelGroups ids).2 := by
    rw [List.getD_eq_getElem _ _ h]
    exact List.getElem_mem h
  rw [hfind, if_pos hin]
  refine ⟨rfl, ?_⟩
  obtain ⟨p, hp, hid⟩ := (hmem _).1 hin
  intro h0
  have : p ∈ voxelMembers ids ((voxelGroups ids).2.getD vmId 0) ids.length :=
    (mem_voxelMembers _ _ _ _).2 ⟨hp, hid⟩
  rw [List.length_eq_zero.1 h0] at this
  simp at this

/-- The result of `voxelGridFilter` for positive voxel sizes: the old points move to
`origPoints`, there is one new point per entry of `voxelIds`, built from the points with that
voxel id, and the views receive the back edges of the new points in their order. -/
theorem voxelGridFilter_eq (uninit : Nat → Vec3 α) (st : Domset α) (sizeX sizeY sizeZ : α)
    (hx : 0 < sizeX) (hy : 0 < sizeY) (hz : 0 < sizeZ) :
    voxelGridFilter uninit st sizeX sizeY sizeZ =
      some { st with
        origPoints := st.points
        points := (List.range (voxelIdsOf st.points sizeX sizeY sizeZ).length).map fun vmId =>
          (⟨voxelPos st.points
              (voxelMembersOf st.points sizeX sizeY sizeZ
                ((voxelIdsOf st.points sizeX sizeY sizeZ).getD vmId 0)) (uninit vmId),
            voxelViewSet st.points
              (voxelMembersOf st.points sizeX sizeY sizeZ
                ((voxelIdsOf st.points sizeX sizeY sizeZ).getD vmId 0))⟩ : Point α)
        views := (List.range (voxelIdsOf st.points sizeX sizeY sizeZ).length).foldl
          (fun vs i => addBackEdges vs
            (voxelViewSet st.points
              (voxelMembersOf st.points sizeX sizeY sizeZ
                ((voxelIdsOf st.points sizeX sizeY sizeZ).getD i 0))) i)
          st.views } := by
  have hcond : ¬ (sizeX ≤ 0 ∨ sizeY ≤ 0 ∨ sizeZ ≤ 0) := by
    rintro (h | h | h)
    · exact absurd hx (not_lt.2 h)
    · exact absurd hy (not_lt.2 h)
    · exact absurd hz (not_lt.2 h)
  simp only [voxelGridFilter, hcond, if_false, voxelIdsOf, voxelMembersOf]
  have hmem := voxelGroups_members (st.points.map (voxelId st.points sizeX sizeY sizeZ))
  rw [List.length_map] at hmem
  rw [voxelEmit_fold uninit st.points _ _ st.views
    (fun vmId h => by rw [(hmem vmId h).1]; exact (hmem vmId h).2) _ le_rfl]
  congr 2
  · apply List.map_congr_left
    intro vmId hv
    rw [(hmem vmId (List.mem_range.1 hv)).1]
  · apply List.foldl_ext
    intro vs vmId hv
    rw [(hmem vmId (List.mem_range.1 hv)).1]

theorem exists_index_iff {β : Type} (pts : List β) (f : β → Nat) (id : Nat) (Q : β → Prop) :
    (∃ p, (p < pts.length ∧ (pts.map f).getD p 0 = id) ∧ ∃ pt, pts.get? p = some pt ∧ Q pt) ↔
      ∃ pt ∈ pts, f pt = id ∧ Q pt := by
  constructor
  · rintro ⟨p, ⟨hp, hid⟩, pt, hpt, hq⟩
    rw [List.get?_eq_getElem?, List.getElem?_eq_some] at hpt
    obtain ⟨_, rfl⟩ := hpt
    refine ⟨pts[p], List.getElem_mem hp, ?_, hq⟩
    rw [List.getD_eq_getElem _ _ (by simpa using hp), List.getElem_map] at hid
    exact hid
  · rintro ⟨pt, hpt, hid, hq⟩
    obtain ⟨p, hp, rfl⟩ := List.getElem_of_mem hpt
    refine ⟨p, ⟨hp, ?_⟩, pts[p], ?_, hq⟩
    · rw [List.getD_eq_getElem _ _ (by simpa using hp), List.getElem_map]
      exact hid
    · rw [List.get?_eq_getElem?, List.getElem?_eq_getElem hp]

/-- The ids in `voxelIds` are distinct, and they are the voxel ids of the points. -/
theorem voxelIdsOf_spec (points : List (Point α)) (sizeX sizeY sizeZ : α) :
    (voxelIdsOf points sizeX sizeY sizeZ).Nodup ∧
      ∀ id, id ∈ voxelIdsOf points sizeX sizeY sizeZ ↔
        ∃ pt ∈ points, voxelId points sizeX sizeY sizeZ pt = id := by
  obtain ⟨_, hnd, hmem, _⟩ :=
    voxelGroups_inv (points.map (voxelId points sizeX sizeY sizeZ))
  refine ⟨hnd, fun id => ?_⟩
  simp only [voxelIdsOf]
  rw [hmem, List.length_map]
  have := exists_index_iff points (voxelId points sizeX sizeY sizeZ) id (fun _ => True)
  simp only [and_true] at this
  rw [← this]
  constructor
  · rintro ⟨p, hp, hid⟩
    exact ⟨p, ⟨hp, hid⟩, points[p], by rw [List.get?_eq_getElem?, List.getElem?_eq_getElem hp]⟩
  · rintro ⟨p, h, _⟩
    exact ⟨p, h⟩

/-- The view list built for a voxel is strictly ascending and holds exactly the view ids
in the view lists of the points with that voxel id. -/
theorem voxelViewSet_spec (points : List (Point α)) (sizeX sizeY sizeZ : α) (id : Nat) :
    (voxelViewSet points (voxelMembersOf points sizeX sizeY sizeZ id)).Sorted
        (fun x y => x < y) ∧
      ∀ v, v ∈ voxelViewSet points (voxelMembersOf points sizeX sizeY sizeZ id) ↔
        ∃ pt ∈ points, voxelId points sizeX sizeY sizeZ pt = id ∧ v ∈ pt.viewList := by
  refine ⟨voxelViewSet_sorted _ _, fun v => ?_⟩
  rw [mem_voxelViewSet, ← exists_index_iff points (voxelId points sizeX sizeY sizeZ) id
    (fun pt => v ∈ pt.viewList)]
  simp only [voxelMembersOf, mem_voxelMembers]

/-- C7: for positive voxel sizes `voxelGridFilter` returns, with exactly one new point per
distinct voxel id: `voxelIds` lists every voxel id of an input point once, the new points
correspond to its entries in order (so there are at most as many as input points, and every
input point belongs to exactly one of them), and the view list of the new point of a voxel
id is the strictly ascending list of exactly the view ids in the view lists of the input
points with that voxel id. -/
theorem voxelGridFilter_groups (uninit : Nat → Vec3 α) (st : Domset α) (sizeX sizeY sizeZ : α)
    (hx : 0 < sizeX) (hy : 0 < sizeY) (hz : 0 < sizeZ) :
    ∃ st2, voxelGridFilter uninit st sizeX sizeY sizeZ = some st2 ∧
      (voxelIdsOf st.points sizeX sizeY sizeZ).Nodup ∧
      (∀ id, id ∈ voxelIdsOf st.points sizeX sizeY sizeZ ↔
        ∃ pt ∈ st.points, voxelId st.points sizeX sizeY sizeZ pt = id) ∧
      st2.points.length = (voxelIdsOf st.points sizeX sizeY sizeZ).length ∧
      st2.points.length ≤ st.points.length ∧
      ∀ j id, (voxelIdsOf st.points sizeX sizeY sizeZ).get? j = some id →
        ∃ pt2, st2.points.get? j = some pt2 ∧ pt2.viewList.Sorted (fun x y => x < y) ∧
          ∀ v, v ∈ pt2.viewList ↔
            ∃ pt ∈ st.points, voxelId st.points sizeX sizeY sizeZ pt = id ∧ v ∈ pt.viewList := by
  obtain ⟨hnd, hmem⟩ := voxelIdsOf_spec st.points sizeX sizeY sizeZ
  refine ⟨_, voxelGridFilter_eq uninit st sizeX sizeY sizeZ hx hy hz, hnd, hmem, ?_, ?_, ?_⟩
  · simp
  · simp only [List.length_map, List.length_range]
    have hsub : voxelIdsOf st.points sizeX sizeY sizeZ ⊆
        st.points.map (voxelId st.points sizeX sizeY sizeZ) := by
      intro id hid
      obtain ⟨pt, hpt, rfl⟩ := (hmem id).1 hid
      exact List.mem_map_of_mem _ hpt
    have := (List.subperm_of_subset hnd hsub).length_le
    simpa using this
  · intro j id hj
    rw [List.get?_eq_getElem?, List.getElem?_eq_some] at hj
    obtain ⟨hjlt, hjid⟩ := hj
    have hgetD : (voxelIdsOf st.points sizeX sizeY sizeZ).getD j 0 = id := by
      rw [List.getD_eq_getElem _ _ hjlt]; exact hjid
    refine ⟨⟨voxelPos st.points (voxelMembersOf st.points sizeX sizeY sizeZ id) (uninit j),
        voxelViewSet st.points (voxelMembersOf st.points sizeX sizeY sizeZ id)⟩, ?_,
      (voxelViewSet_spec st.points sizeX sizeY sizeZ id).1,
      (voxelViewSet_spec st.points sizeX sizeY sizeZ id).2⟩
    simp only [List.get?_eq_getElem?, List.getElem?_map, List.getElem?_range hjlt,
      Option.map_some', hgetD]

end VoxelFilterTheorems

section BackEdgeLemmas

variable {α : Type}

theorem addBackEdges_getElem? (idx v : Nat) :
    ∀ (vl : List Nat) (vs : List (View α)), vl.Nodup →
      (addBackEdges vs vl idx)[v]? = (vs[v]?).map fun w =>
        if v ∈ vl then { w with viewPoints := w.viewPoints ++ [idx] } else w := by
  intro vl
  induction vl with
  | nil =>
    intro vs _
    simp [addBackEdges]
  | cons a vl ih =>
    intro vs hnd
    have hnd2 := List.nodup_cons.1 hnd
    have hstep : addBackEdges vs (a :: vl) idx =
        addBackEdges
          (vs.modify (fun w => { w with viewPoints := w.viewPoints ++ [idx] }) a) vl idx := by
      simp [addBackEdges]
    rw [hstep, ih _ hnd2.2, List.getElem?_modify]
    cases hv : vs[v]? with
    | none => simp
    | some w =>
      simp only [Option.map_some', Option.some.injEq, Functor.map]
      by_cases hav : a = v
      · subst hav
        simp [hnd2.1]
      · have hva : ¬ v = a := fun h => hav h.symm
        simp [hav, hva]

theorem addBackEdges_fold_getElem? (VL : Nat → List Nat) (hVL : ∀ i, (VL i).Nodup) (v : Nat)
    (views : List (View α)) :
    ∀ n, ((List.range n).foldl (fun vs i => addBackEdges vs (VL i) i) views)[v]? =
      (views[v]?).map fun w =>
        { w with viewPoints := w.viewPoints ++ (List.range n).filter fun i => v ∈ VL i } := by
  intro n
  induction n with
  | zero => simp
  | succ n ih =>
    rw [List.range_succ, List.foldl_append, List.foldl_cons, List.foldl_nil,
      addBackEdges_getElem? n v (VL n) _ (hVL n), ih, List.filter_append]
    cases hv : views[v]? with
    | none => simp
    | some w =>
      simp only [Option.map_some', Option.some.injEq]
      by_cases hin : v ∈ VL n
      · simp [hin, List.filter_cons_of_pos]
      · simp [hin, List.filter_cons_of_neg]

end BackEdgeLemmas

section BackEdgeTheorems

variable {α : Type} [LinearOrderedField α] [FloorRing α]

/-- C8: after `voxelGridFilter` on a state in which every view has no view points yet and
every view id in a view list is below the number of views, every view has strictly ascending
`viewPoints`, and a point index `i` is in `viewPoints` of the view `v` if and only if `v` is
in the view list of the new point `i` (so every index is below the number of new points). -/
theorem voxelGridFilter_backEdges (uninit : Nat → Vec3 α) (st : Domset α)
    (sizeX sizeY sizeZ : α) (hx : 0 < sizeX) (hy : 0 < sizeY) (hz : 0 < sizeZ)
    (h0 : ∀ vw ∈ st.views, vw.viewPoints = [])
    (hv : ∀ pt ∈ st.points, ∀ v ∈ pt.viewList, v < st.views.length) :
    ∃ st2, voxelGridFilter uninit st sizeX sizeY sizeZ = some st2 ∧
      st2.views.length = st.views.length ∧
      (∀ v vw, st2.views.get? v = some vw → vw.viewPoints.Sorted (fun x y => x < y)) ∧
      ∀ v i, (∃ vw, st2.views.get? v = some vw ∧ i ∈ vw.viewPoints) ↔
        ∃ pt2, st2.points.get? i = some pt2 ∧ v ∈ pt2.viewList := by
  refine ⟨_, voxelGridFilter_eq uninit st sizeX sizeY sizeZ hx hy hz, ?_, ?_, ?_⟩
  · -- the number of views
    have hlen : ∀ (n : Nat) (VL : Nat → List Nat) (vs : List (View α)),
        ((List.range n).foldl (fun vs i => addBackEdges vs (VL i) i) vs).length = vs.length := by
      intro n VL vs
      induction n with
      | zero => simp
      | succ n ih =>
        rw [List.range_succ, List.foldl_append, List.foldl_cons, List.foldl_nil]
        have hab : ∀ (vl : List Nat) (ws : List (View α)),
            (addBackEdges ws vl n).length = ws.length := by
          intro vl
          induction vl with
          | nil => intro ws; simp [addBackEdges]
          | cons a vl ihv =>
            intro ws
            have : addBackEdges ws (a :: vl) n = addBackEdges
                (ws.modify (fun w => { w with viewPoints := w.viewPoints ++ [n] }) a) vl n := by
              simp [addBackEdges]
            rw [this, ihv, List.length_modify]
        rw [hab, ih]
    exact hlen _ (fun i => voxelViewSet st.points (voxelMembersOf st.points sizeX sizeY sizeZ
      ((voxelIdsOf st.points sizeX sizeY sizeZ).getD i 0))) st.views
  · intro v vw hvw
    simp only [List.get?_eq_getElem?] at hvw
    rw [addBackEdges_fold_getElem?
      (fun i => voxelViewSet st.points (voxelMembersOf st.points sizeX sizeY sizeZ
        ((voxelIdsOf st.points sizeX sizeY sizeZ).getD i 0)))
      (fun i => (voxelViewSet_sorted _ _).nodup) v st.views] at hvw
    cases hw : st.views[v]? with
    | none => simp [hw] at hvw
    | some w =>
      rw [hw] at hvw
      simp only [Option.map_some', Option.some.injEq] at hvw
      subst hvw
      have hwm : w ∈ st.views := List.mem_iff_getElem?.2 ⟨v, hw⟩
      simp only [h0 w hwm, List.nil_append]
      exact (List.sorted_lt_range _).filter _
  · intro v i
    simp only [List.get?_eq_getElem?]
    rw [addBackEdges_fold_getElem?
      (fun i => voxelViewSet st.points (voxelMembersOf st.points sizeX sizeY sizeZ
        ((voxelIdsOf st.points sizeX sizeY sizeZ).getD i 0)))
      (fun i => (voxelViewSet_sorted _ _).nodup) v st.views]
    simp only [List.getElem?_map]
    constructor
    · rintro ⟨vw, hvw, hi⟩
      cases hw : st.views[v]? with
      | none => simp [hw] at hvw
      | some w =>
        rw [hw] at hvw
        simp only [Option.map_some', Option.some.injEq] at hvw
        subst hvw
        have hwm : w ∈ st.views := List.mem_iff_getElem?.2 ⟨v, hw⟩
        simp only [h0 w hwm, List.nil_append, List.mem_filter, List.mem_range,
          decide_eq_true_eq] at hi
        rw [List.getElem?_range hi.1]
        exact ⟨_, rfl, hi.2⟩
    · rintro ⟨pt2, hpt2, hvin⟩
      cases hr : (List.range (voxelIdsOf st.points sizeX sizeY sizeZ).length)[i]? with
      | none => simp [hr] at hpt2
      | some i2 =>
        have hi := (List.getElem?_eq_some.1 hr)
        obtain ⟨hilt, hi2⟩ := hi
        rw [List.getElem_range] at hi2
        subst hi2
        rw [hr] at hpt2
        simp only [Option.map_some', Option.some.injEq] at hpt2
        subst hpt2
        simp only at hvin
        rw [List.length_range] at hilt
        -- the view id is the id of a view
        have hvlt : v < st.views.length := by
          obtain ⟨pt, hpt, _, hvpt⟩ :=
            ((voxelViewSet_spec st.points sizeX sizeY sizeZ _).2 v).1 hvin
          exact hv pt hpt v hvpt
        rw [List.getElem?_eq_getElem hvlt]
        refine ⟨_, rfl, ?_⟩
        simp only [h0 _ (List.getElem_mem hvlt), List.nil_append, List.mem_filter,
          List.mem_range, decide_eq_true_eq]
        exact ⟨hilt, hvin⟩

end BackEdgeTheorems

section SimilarityLemmas

variable {α : Type} [LinearOrderedField α]

theorem mem_setIntersectionAux (x : Nat) :
    ∀ (fuel : Nat) (l1 l2 : List Nat), x ∈ setIntersectionAux fuel l1 l2 → x ∈ l1 ∧ x ∈ l2 := by
  intro fuel
  induction fuel with
  | zero => intro l1 l2 h; simp [setIntersectionAux] at h
  | succ fuel ih =>
    intro l1 l2 h
    cases l1 with
    | nil => simp [setIntersectionAux] at h
    | cons a l1 =>
      cases l2 with
      | nil => simp [setIntersectionAux] at h
      | cons b l2 =>
        simp only [setIntersectionAux] at h
        split at h
        · have := ih _ _ h
          exact ⟨List.mem_cons_of_mem _ this.1, this.2⟩
        · split at h
          · have := ih _ _ h
            exact ⟨this.1, List.mem_cons_of_mem _ this.2⟩
          · rename_i h1 h2
            have hab : a = b := by omega
            rcases List.mem_cons.1 h with rfl | h
            · exact ⟨List.mem_cons_self _ _, by rw [hab]; exact List.mem_cons_self _ _⟩
            · have := ih _ _ h
              exact ⟨List.mem_cons_of_mem _ this.1, List.mem_cons_of_mem _ this.2⟩

/-- Two views without a common point have no common points found. -/
theorem findCommonPoints_eq_nil {β : Type} (v1 v2 : View β)
    (h : ∀ p, p ∈ v1.viewPoints → p ∉ v2.viewPoints) : findCommonPoints v1 v2 = [] := by
  apply List.eq_nil_iff_forall_not_mem.2
  intro x hx
  have := mem_setIntersectionAux x _ _ _ hx
  exact h x this.1 this.2

theorem sum_fold_bounds (g : Nat → α) (hg : ∀ p, 0 < g p ∧ g p ≤ 1) :
    ∀ (l : List Nat) (w : α),
      w ≤ l.foldl (fun w pId => w + g pId) w ∧
        l.foldl (fun w pId => w + g pId) w ≤ w + (l.length : α) := by
  intro l
  induction l with
  | nil => intro w; simp
  | cons p l ih =>
    intro w
    simp only [List.foldl_cons, List.length_cons, Nat.cast_add, Nat.cast_one]
    obtain ⟨h1, h2⟩ := ih (w + g p)
    obtain ⟨h3, h4⟩ := hg p
    constructor
    · linarith
    · linarith

theorem expAngle_bounds (F : Libm α) (st : Domset α) (hσ : 0 < st.kAngleSigma_2)
    (hpos : ∀ x, 0 < F.exp x) (hle : ∀ x, x ≤ 0 → F.exp x ≤ 1) (v1 v2 : View α) (pId : Nat) :
    0 < expAngle F st v1 v2 pId ∧ expAngle F st v1 v2 pId ≤ 1 := by
  simp only [expAngle]
  refine ⟨hpos _, hle _ ?_⟩
  apply div_nonpos_of_nonpos_of_nonneg _ hσ.le
  exact neg_nonpos.2 (mul_self_nonneg _)

/-- The view similarity lies in `[0, 1]`. -/
theorem computeViewSimilaity_bounds (F : Libm α) (st : Domset α) (hσ : 0 < st.kAngleSigma_2)
    (hpos : ∀ x, 0 < F.exp x) (hle : ∀ x, x ≤ 0 → F.exp x ≤ 1) (v1 v2 : View α) :
    0 ≤ computeViewSimilaity F st v1 v2 ∧ computeViewSimilaity F st v1 v2 ≤ 1 := by
  simp only [computeViewSimilaity]
  split
  · exact ⟨le_refl _, zero_le_one⟩
  · rename_i hne
    have hlen : (0 : α) < ((findCommonPoints v1 v2).length : α) := by
      exact_mod_cast Nat.pos_of_ne_zero hne
    obtain ⟨h1, h2⟩ := sum_fold_bounds (expAngle F st v1 v2)
      (expAngle_bounds F st hσ hpos hle v1 v2) (findCommonPoints v1 v2) 0
    rw [zero_add] at h2
    exact ⟨div_nonneg h1 hlen.le, (div_le_one hlen).2 h2⟩

/-- The view similarity of two views without a common point is `0`. -/
theorem computeViewSimilaity_eq_zero (F : Libm α) (st : Domset α) (v1 v2 : View α)
    (h : ∀ p, p ∈ v1.viewPoints → p ∉ v2.viewPoints) : computeViewSimilaity F st v1 v2 = 0 := by
  simp [computeViewSimilaity, findCommonPoints_eq_nil v1 v2 h]

/-- The distance term, where it is a number, lies in `[0, 1]`, and in `(0, 1]` when the
median is not `0`. -/
theorem computeViewDistance_bounds (F : Libm α) (st : Domset α) (hpos : ∀ x, 0 < F.exp x)
    (vId1 vId2 : Nat) (medianDist sd : α)
    (h : computeViewDistance F st vId1 vId2 medianDist = some sd) :
    0 ≤ sd ∧ sd ≤ 1 ∧ (medianDist ≠ 0 → 0 < sd) := by
  simp only [computeViewDistance] at h
  split at h
  · rw [← Option.some.inj h]
    exact ⟨zero_le_one, le_refl _, fun _ => zero_lt_one⟩
  · split at h
    · rename_i hm
      split at h
      · simp at h
      · split at h
        · rw [← Option.some.inj h]
          exact ⟨zero_le_one, le_refl _, fun _ => zero_lt_one⟩
        · rw [← Option.some.inj h]
          exact ⟨le_refl _, zero_le_one, fun h0 => absurd hm h0⟩
    · have hdm : (1 : α) < 1 + F.exp (-(st.viewDists vId1 vId2 - medianDist) / medianDist) := by
        linarith [hpos (-(st.viewDists vId1 vId2 - medianDist) / medianDist)]
      have h0 : (0 : α) < 1 + F.exp (-(st.viewDists vId1 vId2 - medianDist) / medianDist) :=
        lt_trans zero_lt_one hdm
      rw [← Option.some.inj h]
      exact ⟨(div_pos zero_lt_one h0).le, (div_le_one h0).2 hdm.le,
        fun _ => div_pos zero_lt_one h0⟩

/-- For a median other than `0` and two different views the distance term is the number
`1 / (1 + exp(-(vd - medianDist) / medianDist))`. -/
theorem computeViewDistance_finite (F : Libm α) (st : Domset α) (vId1 vId2 : Nat)
    (medianDist : α) (hne : vId1 ≠ vId2) (hm : medianDist ≠ 0) :
    computeViewDistance F st vId1 vId2 medianDist =
      some (1 / (1 + F.exp (-(st.viewDists vId1 vId2 - medianDist) / medianDist))) := by
  simp only [computeViewDistance, if_neg hne, if_neg hm]

/-- For the median `0` the distance term of two different views at the distance `0` is
NaN. -/
theorem computeViewDistance_nan (F : Libm α) (st : Domset α) (vId1 vId2 : Nat)
    (hne : vId1 ≠ vId2) (hvd : st.viewDists vId1 vId2 = 0) :
    computeViewDistance F st vId1 vId2 0 = none := by
  simp only [computeViewDistance, if_neg hne, hvd, if_true]

theorem foldlM_isSome {β γ : Type} (f : β → γ → Option β) :
    ∀ (l : List γ), (∀ b, ∀ x ∈ l, ∃ b2, f b x = some b2) → ∀ b, ∃ r, l.foldlM f b = some r := by
  intro l
  induction l with
  | nil => intro _ b; exact ⟨b, rfl⟩
  | cons x l ih =>
    intro h b
    obtain ⟨b2, hb2⟩ := h b x (List.mem_cons_self _ _)
    obtain ⟨r, hr⟩ := ih (fun b y hy => h b y (List.mem_cons_of_mem _ hy)) b2
    refine ⟨r, ?_⟩
    simp only [List.foldlM_cons, hb2]
    exact hr

theorem foldlM_length_le {β γ : Type} (f : List β → γ → Option (List β))
    (hf : ∀ b x b2, f b x = some b2 → b.length ≤ b2.length) :
    ∀ (l : List γ) (b r : List β), l.foldlM f b = some r → b.length ≤ r.length := by
  intro l
  induction l with
  | nil =>
    intro b r h
    simp only [List.foldlM_nil] at h
    rw [← Option.some.inj h]
  | cons x l ih =>
    intro b r h
    simp only [List.foldlM_cons] at h
    cases hx : f b x with
    | none => simp [hx] at h
    | some b2 =>
      rw [hx] at h
      exact le_trans (hf b x b2 hx) (ih b2 r h)

theorem medianRow_length_le {β : Type} (st : Domset β) (xId2vId : List (Nat × Nat))
    (i v1 : Nat) :
    ∀ (js : List Nat) (dists r : List β),
      js.foldlM (fun dists j =>
        if i = j then some dists
        else (xAt xId2vId j).map fun v2 => dists ++ [st.viewDists v1 v2]) dists = some r →
      dists.length ≤ r.length := by
  apply foldlM_length_le
  intro b j b2 h
  split at h
  · rw [← Option.some.inj h]
  · cases hx : xAt xId2vId j with
    | none => simp [hx] at h
    | some v2 =>
      rw [hx] at h
      simp only [Option.map_some', Option.some.injEq] at h
      rw [← h, List.length_append]
      omega

/-- With at least two items the row of the item `0` adds a distance to `dists`. -/
theorem medianRow_pos {β : Type} (st : Domset β) (xId2vId : List (Nat × Nat)) (numC v1 : Nat)
    (h2 : 2 ≤ numC) (dists r : List β) (h : medianRow st xId2vId numC 0 v1 dists = some r) :
    dists.length < r.length := by
  obtain ⟨n, rfl⟩ : ∃ n, numC = n + 2 := ⟨numC - 2, by omega⟩
  have hr : List.range (n + 2) = 0 :: 1 :: List.range' 2 n := by
    rw [List.range_eq_range', List.range'_succ, List.range'_succ]
  unfold medianRow at h
  rw [hr] at h
  simp only [List.foldlM_cons, Option.bind_eq_bind, Option.bind_eq_some] at h
  obtain ⟨d1, hd1, d2, hd2, hrest⟩ := h
  have hlen := medianRow_length_le st xId2vId 0 v1 _ _ _ hrest
  rw [if_pos trivial] at hd1
  rw [if_neg (by decide)] at hd2
  cases hx : xAt xId2vId 1 with
  | none => simp [hx] at hd2
  | some v2 =>
    rw [hx] at hd2
    simp only [Option.map_some', Option.some.injEq] at hd2 hd1
    subst hd1
    rw [← hd2, List.length_append, List.length_singleton] at hlen
    omega

/-- With at least two items the vector `dists` of `getDistanceMedian` is not empty. -/
theorem medianDists_pos {β : Type} (st : Domset β) (xId2vId : List (Nat × Nat))
    (h2 : 2 ≤ xId2vId.length) (dists : List β) (h : medianDists st xId2vId = some dists) :
    0 < dists.length := by
  have hr : List.range xId2vId.length = 0 :: List.range' 1 (xId2vId.length - 1) := by
    obtain ⟨n, hn⟩ : ∃ n, xId2vId.length = n + 1 := ⟨xId2vId.length - 1, by omega⟩
    rw [hn, List.range_eq_range', List.range'_succ]
    rfl
  simp only [medianDists] at h
  rw [hr] at h
  simp only [List.foldlM_cons, Option.bind_eq_bind, Option.bind_eq_some] at h
  obtain ⟨row, ⟨v1, _, hrow⟩, hrest⟩ := h
  have hlen1 := medianRow_pos st xId2vId _ v1 h2 _ _ hrow
  have hlen2 := foldlM_length_le
    (fun dists i => (xAt xId2vId i).bind fun v1 =>
      medianRow st xId2vId xId2vId.length i v1 dists)
    (by
      intro b i b2 hb
      simp only [Option.bind_eq_some] at hb
      obtain ⟨w, _, hw⟩ := hb
      simp only [medianRow] at hw
      exact medianRow_length_le st xId2vId i w _ _ _ hw)
    _ _ _ hrest
  simp only [List.length_nil] at hlen1
  omega

/-- With the keys `0 .. size - 1` present and at least two items, the median of the
distances is found. -/
theorem getDistanceMedian_isSome (st : Domset α) (xId2vId : List (Nat × Nat))
    (hkeys : xId2vId.map Prod.fst = List.range xId2vId.length) (h2 : 2 ≤ xId2vId.length) :
    ∃ m, getDistanceMedian st xId2vId = some m := by
  have hat : ∀ i, i ∈ List.range xId2vId.length → ∃ v, xAt xId2vId i = some v := by
    intro i hi
    exact ⟨_, xGet_of_keys xId2vId hkeys i (List.mem_range.1 hi)⟩
  have hlen : ¬ xId2vId.length = 0 := by omega
  obtain ⟨dists, hd⟩ : ∃ dists, medianDists st xId2vId = some dists := by
    simp only [medianDists]
    exact foldlM_isSome
      (fun dists i => (xAt xId2vId i).bind fun v1 =>
        medianRow st xId2vId xId2vId.length i v1 dists)
      (List.range xId2vId.length)
      (by
        intro b i hi
        obtain ⟨v1, hv1⟩ := hat i hi
        simp only [hv1, Option.some_bind, medianRow]
        apply foldlM_isSome
        intro b2 j hj
        by_cases hij : i = j
        · exact ⟨b2, by simp [hij]⟩
        · obtain ⟨v2, hv2⟩ := hat j hj
          exact ⟨b2 ++ [st.viewDists v1 v2], by simp [hij, hv2]⟩)
      []
  have hpos := medianDists_pos st xId2vId h2 dists hd
  simp only [getDistanceMedian, hlen, if_false, hd, Option.some_bind]
  have hlt : (dists.insertionSort (fun a b => a ≤ b)).length / 2 <
      (dists.insertionSort (fun a b => a ≤ b)).length := by
    rw [List.length_insertionSort]
    omega
  exact ⟨_, List.get?_eq_get hlt⟩

/-- What `getSimilarityMatrix` returns: the median of the distances is found, every entry of
the matrix is a number, and the function returned holds the entries. -/
theorem getSimilarityMatrix_entry (F : Libm α) (st : Domset α) (xId2vId : List (Nat × Nat))
    (M : Nat → Nat → α) (h : getSimilarityMatrix F st xId2vId = some M) :
    ∃ m, getDistanceMedian st xId2vId = some m ∧
      ∀ xId1 xId2, xId1 < xId2vId.length → xId2 < xId2vId.length →
        similarityEntry F st xId2vId m xId1 xId2 = some (M xId1 xId2) := by
  simp only [getSimilarityMatrix] at h
  split at h
  · simp at h
  · cases hm : getDistanceMedian st xId2vId with
    | none => simp [hm] at h
    | some m =>
      rw [hm] at h
      simp only [Option.some_bind] at h
      split at h
      · rename_i hall
        simp only [Option.some.injEq] at h
        subst h
        refine ⟨m, rfl, fun xId1 xId2 h1 h2 => ?_⟩
        rw [List.all_eq_true] at hall
        have h3 := hall xId1 (List.mem_range.2 h1)
        rw [List.all_eq_true] at h3
        have h4 := h3 xId2 (List.mem_range.2 h2)
        obtain ⟨e, he⟩ := Option.isSome_iff_exists.1 h4
        simp only [he, Option.getD_some]
      · simp at h

/-- For a median other than `0` every entry is a number, and the matrix is returned. -/
theorem getSimilarityMatrix_finite (F : Libm α) (st : Domset α) (xId2vId : List (Nat × Nat))
    (m : α) (hne : ¬ (xId2vId.length = 0 ∨ st.points.length = 0))
    (hm : getDistanceMedian st xId2vId = some m) (hm0 : m ≠ 0) :
    getSimilarityMatrix F st xId2vId =
      some fun xId1 xId2 =>
        if xGet xId2vId xId1 = xGet xId2vId xId2 then 0
        else
          computeViewSimilaity F st
              (st.views.getD (xGet xId2vId xId1) ⟨Vec3.zero, []⟩)
              (st.views.getD (xGet xId2vId xId2) ⟨Vec3.zero, []⟩) *
            (1 / (1 + F.exp (-(st.viewDists (xGet xId2vId xId1) (xGet xId2vId xId2) - m) /
              m))) := by
  have hentry : ∀ xId1 xId2, similarityEntry F st xId2vId m xId1 xId2 =
      some (if xGet xId2vId xId1 = xGet xId2vId xId2 then 0
        else
          computeViewSimilaity F st
              (st.views.getD (xGet xId2vId xId1) ⟨Vec3.zero, []⟩)
              (st.views.getD (xGet xId2vId xId2) ⟨Vec3.zero, []⟩) *
            (1 / (1 + F.exp (-(st.viewDists (xGet xId2vId xId1) (xGet xId2vId xId2) - m) /
              m)))) := by
    intro xId1 xId2
    simp only [similarityEntry]
    split
    · rfl
    · rename_i hv
      rw [computeViewDistance_finite F st _ _ m hv hm0]
      rfl
  simp only [getSimilarityMatrix, if_neg hne, hm, Option.some_bind, hentry, Option.isSome_some,
    List.all_eq_true, implies_true, if_true, Option.getD_some]

end SimilarityLemmas

section SimilarityTheorems

variable {α : Type} [LinearOrderedField α]

/-- The range of the similarity matrix where no entry is NaN, with `kAngleSigma_2 > 0` and
an `exp` that is positive and at most `1` on non-positive arguments (as the real `exp` is).
When the map has the keys `0 .. size - 1`, at least two items and there is a point, the
median of the distances is found, and when it is not `0` `getSimilarityMatrix` returns a
matrix. In every matrix it returns, the diagonal is `0`, every entry lies in `[0, 1]`, an
entry whose two view ids coincide is `0`, and an entry whose two view ids differ is the
product of `computeViewSimilaity` (in `[0, 1]`, and `0` when the two views share no point)
and `computeViewDistance` (in `[0, 1]`, and in `(0, 1]` when the median is not `0`). -/
theorem getSimilarityMatrix_range (F : Libm α) (st : Domset α) (xId2vId : List (Nat × Nat))
    (hσ : 0 < st.kAngleSigma_2) (hpos : ∀ x, 0 < F.exp x)
    (hle : ∀ x, x ≤ 0 → F.exp x ≤ 1) :
    (xId2vId.map Prod.fst = List.range xId2vId.length → 2 ≤ xId2vId.length →
      st.points ≠ [] →
      ∃ m, getDistanceMedian st xId2vId = some m ∧
        (m ≠ 0 → ∃ M, getSimilarityMatrix F st xId2vId = some M)) ∧
    ∀ M, getSimilarityMatrix F st xId2vId = some M →
      ∃ m, getDistanceMedian st xId2vId = some m ∧
        ∀ xId1 xId2, xId1 < xId2vId.length → xId2 < xId2vId.length →
          M xId1 xId1 = 0 ∧ 0 ≤ M xId1 xId2 ∧ M xId1 xId2 ≤ 1 ∧
          (xGet xId2vId xId1 = xGet xId2vId xId2 → M xId1 xId2 = 0) ∧
          (xGet xId2vId xId1 ≠ xGet xId2vId xId2 →
            ∃ sd, computeViewDistance F st (xGet xId2vId xId1) (xGet xId2vId xId2) m =
                some sd ∧
              M xId1 xId2 =
                computeViewSimilaity F st
                    (st.views.getD (xGet xId2vId xId1) ⟨Vec3.zero, []⟩)
                    (st.views.getD (xGet xId2vId xId2) ⟨Vec3.zero, []⟩) * sd ∧
              0 ≤ computeViewSimilaity F st
                    (st.views.getD (xGet xId2vId xId1) ⟨Vec3.zero, []⟩)
                    (st.views.getD (xGet xId2vId xId2) ⟨Vec3.zero, []⟩) ∧
              computeViewSimilaity F st
                    (st.views.getD (xGet xId2vId xId1) ⟨Vec3.zero, []⟩)
                    (st.views.getD (xGet xId2vId xId2) ⟨Vec3.zero, []⟩) ≤ 1 ∧
              ((∀ p, p ∈ (st.views.getD (xGet xId2vId xId1) ⟨Vec3.zero, []⟩).viewPoints →
                  p ∉ (st.views.getD (xGet xId2vId xId2) ⟨Vec3.zero, []⟩).viewPoints) →
                computeViewSimilaity F st
                    (st.views.getD (xGet xId2vId xId1) ⟨Vec3.zero, []⟩)
                    (st.views.getD (xGet xId2vId xId2) ⟨Vec3.zero, []⟩) = 0) ∧
              0 ≤ sd ∧ sd ≤ 1 ∧ (m ≠ 0 → 0 < sd)) := by
  constructor
  · intro hkeys h2 hpts
    obtain ⟨m, hm⟩ := getDistanceMedian_isSome st xId2vId hkeys h2
    refine ⟨m, hm, fun hm0 => ?_⟩
    have hne : ¬ (xId2vId.length = 0 ∨ st.points.length = 0) := by
      intro h
      rcases h with h | h
      · omega
      · exact hpts (List.length_eq_zero.1 h)
    exact ⟨_, getSimilarityMatrix_finite F st xId2vId m hne hm hm0⟩
  · intro M hM
    obtain ⟨m, hm, hentry⟩ := getSimilarityMatrix_entry F st xId2vId M hM
    refine ⟨m, hm, fun xId1 xId2 h1 h2 => ?_⟩
    have hsv := computeViewSimilaity_bounds F st hσ hpos hle
      (st.views.getD (xGet xId2vId xId1) ⟨Vec3.zero, []⟩)
      (st.views.getD (xGet xId2vId xId2) ⟨Vec3.zero, []⟩)
    have hdiag : M xId1 xId1 = 0 := by
      have := hentry xId1 xId1 h1 h1
      simp only [similarityEntry, if_true, Option.some.injEq] at this
      exact this.symm
    have he := hentry xId1 xId2 h1 h2
    simp only [similarityEntry] at he
    by_cases hv : xGet xId2vId xId1 = xGet xId2vId xId2
    · rw [if_pos hv, Option.some.injEq] at he
      rw [← he]
      exact ⟨hdiag, le_refl _, zero_le_one, fun _ => rfl, fun h => absurd hv h⟩
    · rw [if_neg hv] at he
      cases hsd : computeViewDistance F st (xGet xId2vId xId1) (xGet xId2vId xId2) m with
      | none => simp [hsd] at he
      | some sd =>
        rw [hsd] at he
        simp only [Option.map_some', Option.some.injEq] at he
        obtain ⟨hsd0, hsd1, hsdpos⟩ := computeViewDistance_bounds F st hpos _ _ m sd hsd
        rw [← he]
        refine ⟨hdiag, mul_nonneg hsv.1 hsd0, mul_le_one₀ hsv.2 hsd0 hsd1,
          fun h => absurd h hv, fun _ => ⟨sd, rfl, rfl, hsv.1, hsv.2, ?_, hsd0, hsd1, hsdpos⟩⟩
        intro hno
        exact computeViewSimilaity_eq_zero F st _ _ hno

end SimilarityTheorems

section DistanceTheorems

variable {α : Type} [LinearOrderedField α]

theorem Vec3.dot_sub_comm (a b : Vec3 α) :
    (a.sub b).dot (a.sub b) = (b.sub a).dot (b.sub a) := by
  simp only [Vec3.sub, Vec3.dot]
  ring

theorem Vec3.dot_sub_self (a : Vec3 α) : (a.sub a).dot (a.sub a) = 0 := by
  simp only [Vec3.sub, Vec3.dot]
  ring

/-- C11: for a non-empty view list `getAllDistances` returns, and the matrix `viewDists` it
has filled is symmetric, has a zero diagonal and has no negative entry, for every square
root that is `0` at `0` and never negative. -/
theorem getAllDistances_symm (F : Libm α) (st : Domset α) (hv : st.views ≠ [])
    (h0 : F.sqrt 0 = 0) (hnn : ∀ x, 0 ≤ F.sqrt x) :
    ∃ st2, getAllDistances F st = some st2 ∧
      ∀ i j, i < st.views.length → j < st.views.length →
        st2.viewDists i j = st2.viewDists j i ∧ st2.viewDists i i = 0 ∧
          0 ≤ st2.viewDists i j := by
  have hlen : ¬ st.views.length = 0 := fun h => hv (List.length_eq_zero.1 h)
  simp only [getAllDistances, hlen, if_false]
  refine ⟨_, rfl, ?_⟩
  intro i j _ _
  refine ⟨?_, ?_, hnn _⟩
  · simp only [Vec3.norm]
    rw [Vec3.dot_sub_comm]
  · simp only [Vec3.norm]
    rw [Vec3.dot_sub_self, h0]

end DistanceTheorems

section PropagationLemmas

theorem range'_split (s m n : Nat) (h : m ≤ n) :
    List.range' s n = List.range' s m ++ List.range' (s + m) (n - m) := by
  rw [List.range'_append_1]
  congr 1
  omega

/-- The indices below `n` other than `a` and `b`, for `a < b < n`, are the three ranges
`[0, a)`, `(a, b)` and `(b, n)` one after the other. -/
theorem range_filter_two (a b n : Nat) (hab : a < b) (hb : b < n) :
    (List.range n).filter (fun ii => decide (ii ≠ a ∧ ii ≠ b)) =
      List.range a ++ List.range' (a + 1) (b - (a + 1)) ++
        List.range' (b + 1) (n - (b + 1)) := by
  have h1 : List.range n = List.range a ++ ([a] ++ (List.range' (a + 1) (b - (a + 1)) ++
      ([b] ++ List.range' (b + 1) (n - (b + 1))))) := by
    rw [List.range_eq_range', List.range_eq_range', range'_split 0 a n (by omega),
      range'_split (0 + a) 1 (n - a) (by omega),
      range'_split (0 + a + 1) (b - (a + 1)) (n - a - 1) (by omega),
      range'_split (0 + a + 1 + (b - (a + 1))) 1 (n - a - 1 - (b - (a + 1))) (by omega)]
    have e1 : 0 + a = a := by omega
    have e2 : 0 + a + 1 + (b - (a + 1)) = b := by omega
    have e3 : n - a - 1 - (b - (a + 1)) - 1 = n - (b + 1) := by omega
    rw [e2, e3, e1]
    rfl
  rw [h1]
  simp only [List.filter_append]
  have f1 : (List.range a).filter (fun ii => decide (ii ≠ a ∧ ii ≠ b)) = List.range a := by
    rw [List.filter_eq_self]
    intro x hx
    rw [List.mem_range] at hx
    simp only [decide_eq_true_eq]
    omega
  have f2 : (List.range' (a + 1) (b - (a + 1))).filter (fun ii => decide (ii ≠ a ∧ ii ≠ b)) =
      List.range' (a + 1) (b - (a + 1)) := by
    rw [List.filter_eq_self]
    intro x hx
    rw [List.mem_range'_1] at hx
    simp only [decide_eq_true_eq]
    omega
  have f3 : (List.range' (b + 1) (n - (b + 1))).filter (fun ii => decide (ii ≠ a ∧ ii ≠ b)) =
      List.range' (b + 1) (n - (b + 1)) := by
    rw [List.filter_eq_self]
    intro x hx
    rw [List.mem_range'_1] at hx
    simp only [decide_eq_true_eq]
    omega
  have f4 : [a].filter (fun ii => decide (ii ≠ a ∧ ii ≠ b)) = [] := by simp
  have f5 : [b].filter (fun ii => decide (ii ≠ a ∧ ii ≠ b)) = [] := by simp
  rw [f1, f2, f3, f4, f5]
  simp

variable {α : Type} [LinearOrderedField α]

theorem positiveSum_fold (R : Nat → Nat → α) (k : Nat) (iis : List Nat) (acc : α) :
    iis.foldl (fun sum ii => if R ii k > 0 then sum + R ii k else sum) acc =
      acc + (iis.map fun ii => Max.max 0 (R ii k)).sum := by
  induction iis generalizing acc with
  | nil => simp
  | cons a l ih =>
    rw [List.foldl_cons, ih, List.map_cons, List.sum_cons]
    split
    · rename_i h
      rw [max_eq_right (le_of_lt h)]
      ring
    · rename_i h
      rw [max_eq_left (not_lt.1 h)]
      ring

/-- A partial sum of the code is the sum of `max(0, R(ii,k))` over its indices. -/
theorem positiveSum_eq (R : Nat → Nat → α) (k : Nat) (iis : List Nat) :
    positiveSum R k iis = (iis.map fun ii => Max.max 0 (R ii k)).sum := by
  rw [positiveSum, positiveSum_fold, zero_add]

/-- The diagonal entry `A(k,k)` keeps the value `0` over any number of iterations. -/
theorem apIterate_diag (lambda : α) (numX : Nat) (S : Nat → Nat → α) (k : Nat) :
    ∀ (m : Nat) (RA : (Nat → Nat → α) × (Nat → Nat → α)), RA.2 k k = 0 →
      (apIterate lambda numX S m RA).2 k k = 0 := by
  intro m
  induction m with
  | zero => intro RA h; exact h
  | succ m ih =>
    intro RA h
    simp only [apIterate]
    apply ih
    simp only [updateAvailability, if_true]
    exact h

end PropagationLemmas

section PropagationTheorems

variable {α : Type} [LinearOrderedField α]

/-- C13: for `i != k` below `numX`, one availability update sets `A(i,k)` to
`(1 - lambda) * min(0, R(k,k) + sum) + lambda * A_old(i,k)`, where `sum` is the single sum of
`max(0, R(i',k))` over all `i'` below `numX` other than `i` and `k` (the three partial sums
of the code add up to it); the update leaves `A(k,k)` as it is, and `A(k,k)` is `0` after
any number of iterations from `R = A = 0`. -/
theorem updateAvailability_single_sum (lambda : α) (numX : Nat) (S R A : Nat → Nat → α)
    (i k : Nat) (hi : i < numX) (hk : k < numX) (hne : i ≠ k) :
    updateAvailability lambda numX R A i k =
        (1 - lambda) * Min.min 0 (R k k +
          (((List.range numX).filter fun ii => ii ≠ i ∧ ii ≠ k).map
            fun ii => Max.max 0 (R ii k)).sum) + lambda * A i k ∧
      updateAvailability lambda numX R A k k = A k k ∧
      ∀ m, (apIterate lambda numX S m (fun _ _ => 0, fun _ _ => 0)).2 k k = 0 := by
  refine ⟨?_, by simp only [updateAvailability, if_true], fun m => apIterate_diag _ _ _ _ m _ rfl⟩
  simp only [updateAvailability, if_neg hne, positiveSum_eq]
  rcases Nat.lt_or_gt_of_ne hne with hlt | hgt
  · rw [range_filter_two i k numX hlt hk, max_eq_right hlt.le, min_eq_left hlt.le]
    simp only [List.map_append, List.sum_append]
    ring_nf
  · have hf : (List.range numX).filter (fun ii => decide (ii ≠ i ∧ ii ≠ k)) =
        (List.range numX).filter (fun ii => decide (ii ≠ k ∧ ii ≠ i)) := by
      apply List.filter_congr
      intro ii _
      exact decide_eq_decide.2 and_comm
    rw [hf, range_filter_two k i numX hgt hi, max_eq_left hgt.le, min_eq_right hgt.le]
    simp only [List.map_append, List.sum_append]
    ring_nf

end PropagationTheorems

section SplitChunkLemmas

/-- The number of chunks: one more chunk when a full chunk is cut off. -/
theorem chunkCount_succ (n kMax : Nat) (hmax : 1 ≤ kMax) :
    (n + kMax + kMax - 1) / kMax = (n + kMax - 1) / kMax + 1 := by
  have e : n + kMax + kMax - 1 = (n + kMax - 1) + kMax := by omega
  rw [e, Nat.add_div_right _ (by omega : 0 < kMax)]

theorem chunkCount_one (n kMax : Nat) (h1 : 1 ≤ n) (h2 : n ≤ kMax) :
    (n + kMax - 1) / kMax = 1 := by
  have hk : 0 < kMax := by omega
  apply Nat.le_antisymm
  · apply Nat.le_of_lt_succ
    rw [Nat.div_lt_iff_lt_mul hk]
    omega
  · rw [Nat.le_div_iff_mul_le hk]
    omega

/-- The loop of the split from the offset `it`: it returns, and appends the sorted slices
of `kMax` elements from `it` on, `ceil((length - it) / kMax)` of them, which together hold
the elements from `it` on. -/
theorem splitLoop_chunks (kMax : Nat) (cl : List Nat) (hmax : 1 ≤ kMax) :
    ∀ (fuel it : Nat) (cs : List (List Nat)), it < cl.length → cl.length < it + fuel →
      splitLoop kMax cl fuel it cs =
          some (cs ++ (List.range ((cl.length - it + kMax - 1) / kMax)).map fun j =>
            ((cl.drop (it + j * kMax)).take kMax).insertionSort (fun a b => a ≤ b)) ∧
        ((List.range ((cl.length - it + kMax - 1) / kMax)).map fun j =>
            ((cl.drop (it + j * kMax)).take kMax).insertionSort
              (fun a b => a ≤ b)).flatten.Perm (cl.drop it) := by
  intro fuel
  induction fuel with
  | zero => intro it cs h1 h2; omega
  | succ fuel ih =>
    intro it cs h1 h2
    simp only [splitLoop]
    split
    · rename_i hlt
      obtain ⟨hrun, hperm⟩ :=
        ih (it + kMax) (cs ++ [((cl.drop it).take kMax).insertionSort (fun a b => a ≤ b)])
          hlt (by omega)
      have hq : (cl.length - it + kMax - 1) / kMax =
          (cl.length - (it + kMax) + kMax - 1) / kMax + 1 := by
        rw [← chunkCount_succ _ _ hmax]
        congr 1
        omega
      have hmap : ((List.range ((cl.length - it + kMax - 1) / kMax)).map fun j =>
            ((cl.drop (it + j * kMax)).take kMax).insertionSort (fun a b => a ≤ b)) =
          ((cl.drop it).take kMax).insertionSort (fun a b => a ≤ b) ::
            (List.range ((cl.length - (it + kMax) + kMax - 1) / kMax)).map fun j =>
              ((cl.drop (it + kMax + j * kMax)).take kMax).insertionSort
                (fun a b => a ≤ b) := by
        rw [hq, List.range_succ_eq_map, List.map_cons, List.map_map]
        congr 1
        · simp
        · apply List.map_congr_left
          intro j _
          simp only [Function.comp]
          congr 3
          rw [Nat.succ_mul]
          omega
      rw [hmap]
      refine ⟨by rw [hrun, List.append_assoc]; rfl, ?_⟩
      rw [List.flatten_cons]
      have hsplit : cl.drop it = (cl.drop it).take kMax ++ cl.drop (it + kMax) := by
        rw [← List.drop_drop, List.take_append_drop]
      exact (List.Perm.append (List.perm_insertionSort _ _) hperm).trans
        (List.Perm.of_eq hsplit.symm)
    · rename_i hge
      have hq : (cl.length - it + kMax - 1) / kMax = 1 :=
        chunkCount_one _ _ (by omega) (by omega)
      have htake : (cl.drop it).take kMax = cl.drop it :=
        List.take_of_length_le (by rw [List.length_drop]; omega)
      have hr : List.range 1 = [0] := rfl
      rw [hq, hr]
      simp only [List.map_cons, List.map_nil, Nat.zero_mul, Nat.add_zero, htake]
      refine ⟨trivial, ?_⟩
      simp only [List.flatten_cons, List.flatten_nil, List.append_nil]
      exact List.perm_insertionSort _ _

theorem chunk_lengths (n kMax j : Nat) (hmax : 1 ≤ kMax)
    (hj : j < (n + kMax - 1) / kMax) :
    j * kMax < n ∧ (j + 1 < (n + kMax - 1) / kMax → (j + 1) * kMax < n) := by
  have hk : 0 < kMax := by omega
  have h1 : (j + 1) * kMax ≤ n + kMax - 1 := (Nat.le_div_iff_mul_le hk).1 hj
  rw [Nat.succ_mul] at h1
  refine ⟨by omega, fun h => ?_⟩
  have h2 : (j + 1 + 1) * kMax ≤ n + kMax - 1 := (Nat.le_div_iff_mul_le hk).1 h
  rw [Nat.succ_mul] at h2
  omega

end SplitChunkLemmas

section SplitChunkTheorems

/-- C17: for `kMaxClusterSize >= 1` and an entry with `n > kMaxClusterSize` members, the
split returns and appends exactly `ceil(n / kMaxClusterSize)` clusters; with `cl` the vector
of the view ids of the members in their order, the chunk `j` is the ascending sort of the
slice of `cl` from index `j * kMaxClusterSize` up to `min((j + 1) * kMaxClusterSize, n) - 1`;
every chunk but the last has `kMaxClusterSize` members, every chunk has between `1` and
`kMaxClusterSize`, and the chunks together are a rearrangement of `cl`. -/
theorem emitCluster_chunks (kMaxClusterSize : Nat) (xId2vId : List (Nat × Nat))
    (members : List Nat) (clusters : List (List Nat)) (hmax : 1 ≤ kMaxClusterSize)
    (hn : kMaxClusterSize < members.length) :
    ∃ chunks : List (List Nat),
      emitCluster kMaxClusterSize xId2vId members clusters = some (clusters ++ chunks) ∧
      chunks.length = (members.length + kMaxClusterSize - 1) / kMaxClusterSize ∧
      (∀ j, j < chunks.length → ∃ c, chunks.get? j = some c ∧
        c = ((((members.map (xGet xId2vId)).drop (j * kMaxClusterSize)).take
          kMaxClusterSize).insertionSort fun a b => a ≤ b) ∧
        c.Sorted (fun a b => a ≤ b) ∧
        c.Perm (((members.map (xGet xId2vId)).drop (j * kMaxClusterSize)).take
          kMaxClusterSize) ∧
        (j + 1 < chunks.length → c.length = kMaxClusterSize) ∧
        1 ≤ c.length ∧ c.length ≤ kMaxClusterSize) ∧
      chunks.flatten.Perm (members.map (xGet xId2vId)) := by
  have hlen : (members.map (xGet xId2vId)).length = members.length := List.length_map _ _
  obtain ⟨hrun, hperm⟩ := splitLoop_chunks kMaxClusterSize (members.map (xGet xId2vId)) hmax
    ((members.map (xGet xId2vId)).length + 1) 0 clusters (by omega) (by omega)
  simp only [Nat.sub_zero, Nat.zero_add, List.drop_zero, hlen] at hrun hperm
  refine ⟨_, ?_, ?_, ?_, hperm⟩
  · simp only [emitCluster, hlen, if_pos hn]
    exact hrun
  · rw [List.length_map, List.length_range]
  · intro j hj
    rw [List.length_map, List.length_range] at hj
    obtain ⟨h1, h2⟩ := chunk_lengths members.length kMaxClusterSize j hmax hj
    refine ⟨_, ?_, rfl, List.sorted_insertionSort _ _, List.perm_insertionSort _ _, ?_, ?_, ?_⟩
    · rw [List.get?_eq_getElem?, List.getElem?_map, List.getElem?_range hj]
      rfl
    · intro h
      rw [List.length_map, List.length_range] at h
      have := h2 h
      rw [Nat.succ_mul] at this
      rw [List.length_insertionSort, List.length_take, List.length_drop, hlen]
      omega
    · rw [List.length_insertionSort, List.length_take, List.length_drop, hlen]
      omega
    · rw [List.length_insertionSort, List.length_take]
      omega

end SplitChunkTheorems

section DisjointLemmas

end DisjointLemmas

section DisjointTheorems

variable {α : Type} [LinearOrderedField α]

end DisjointTheorems

section LineSceneLemmas

theorem lineScene_viewPoints (a : Nat) (ha : a ≠ 0) :
    (lineScene.views.getD a ⟨Vec3.zero, []⟩).viewPoints = [] := by
  rcases a with _ | _ | _ | a
  · exact absurd rfl ha
  · rfl
  · rfl
  · rfl

/-- On the points, views and distances of `lineScene` every similarity is `0`, whatever the
library functions and the other members are: no two views share a point. -/
theorem lineScene_similarity (F : Libm ℚ) (st : Domset ℚ) (hp : st.points = lineScene.points)
    (hv : st.views = lineScene.views) (hd : st.viewDists = lineScene.viewDists) :
    getSimilarityMatrix F st [(0, 0), (1, 1), (2, 2)] = some fun _ _ => 0 := by
  have hm : getDistanceMedian st [(0, 0), (1, 1), (2, 2)] = some 1 := by
    have h1 : getDistanceMedian lineScene [(0, 0), (1, 1), (2, 2)] = some 1 := by decide!
    rw [← h1]
    simp only [getDistanceMedian, medianDists, medianRow, hd]
  have hpl : ¬ ([(0, 0), (1, 1), (2, 2)].length = 0 ∨ st.points.length = 0) := by
    rw [hp]; decide
  rw [getSimilarityMatrix_finite F st _ 1 hpl hm one_ne_zero, Option.some.injEq]
  funext xId1 xId2
  split
  · rfl
  · rename_i hne
    rw [computeViewSimilaity_eq_zero, zero_mul]
    intro p hp
    rw [hv] at hp ⊢
    by_cases h1 : xGet [(0, 0), (1, 1), (2, 2)] xId1 = 0
    · have h2 : xGet [(0, 0), (1, 1), (2, 2)] xId2 ≠ 0 := fun h => hne (h1.trans h.symm)
      rw [lineScene_viewPoints _ h2]
      simp
    · rw [lineScene_viewPoints _ h1] at hp
      simp at hp

end LineSceneLemmas

section PairSceneLemmas

theorem xGet_idMap2 (x : Nat) :
    xGet [(0, 0), (1, 1)] x = 0 ∨ xGet [(0, 0), (1, 1)] x = 1 := by
  rcases x with _ | _ | x
  · exact Or.inl rfl
  · exact Or.inr rfl
  · exact Or.inl rfl

/-- On the points, views and distances of `pairScene` the similarity of the two views is
`1 / 2`, for all library functions that are exact at the arguments they are called with here:
`exp 0 = 1`, `acos 1 = 0`, `sqrt 1 = 1` and `sqrt 4 = 2`. -/
theorem pairScene_similarity (F : Libm ℚ) (hexp : F.exp 0 = 1) (hacos : F.acos 1 = 0)
    (hsqrt1 : F.sqrt 1 = 1) (hsqrt4 : F.sqrt 4 = 2) (st : Domset ℚ)
    (hp : st.points = pairScene.points) (hv : st.views = pairScene.views)
    (hd : st.viewDists = pairScene.viewDists) (hσ : st.kAngleSigma_2 = 1) :
    getSimilarityMatrix F st [(0, 0), (1, 1)] =
      some fun xId1 xId2 =>
        if xGet [(0, 0), (1, 1)] xId1 = xGet [(0, 0), (1, 1)] xId2 then 0 else 1 / 2 := by
  have hm : getDistanceMedian st [(0, 0), (1, 1)] = some 1 := by
    have h1 : getDistanceMedian pairScene [(0, 0), (1, 1)] = some 1 := by decide!
    rw [← h1]
    simp only [getDistanceMedian, medianDists, medianRow, hd]
  have hpl : ¬ ([(0, 0), (1, 1)].length = 0 ∨ st.points.length = 0) := by
    rw [hp]; decide
  rw [getSimilarityMatrix_finite F st _ 1 hpl hm one_ne_zero, Option.some.injEq]
  funext xId1 xId2
  split
  · rfl
  · rename_i hne
    have h01 : computeViewSimilaity F st (st.views.getD 0 ⟨Vec3.zero, []⟩)
        (st.views.getD 1 ⟨Vec3.zero, []⟩) *
          (1 / (1 + F.exp (-(st.viewDists 0 1 - 1) / 1))) = 1 / 2 := by
      simp [computeViewSimilaity, findCommonPoints, setIntersectionAux, expAngle,
        Vec3.normalize, Vec3.sub, Vec3.dot, Vec3.sdiv, hp, hv, hd, hσ,
        pairScene, pairSceneOf, hexp, hacos, hsqrt1]
      norm_num [hsqrt4, hacos, hexp]
    have h10 : computeViewSimilaity F st (st.views.getD 1 ⟨Vec3.zero, []⟩)
        (st.views.getD 0 ⟨Vec3.zero, []⟩) *
          (1 / (1 + F.exp (-(st.viewDists 1 0 - 1) / 1))) = 1 / 2 := by
      simp [computeViewSimilaity, findCommonPoints, setIntersectionAux, expAngle,
        Vec3.normalize, Vec3.sub, Vec3.dot, Vec3.sdiv, hp, hv, hd, hσ,
        pairScene, pairSceneOf, hexp, hacos, hsqrt1]
      norm_num [hsqrt4, hacos, hexp]
    rcases xGet_idMap2 xId1 with h1 | h1 <;> rcases xGet_idMap2 xId2 with h2 | h2
    · exact absurd (h1.trans h2.symm) hne
    · rw [h1, h2]; exact h01
    · rw [h1, h2]; exact h10
    · exact absurd (h1.trans h2.symm) hne

end PairSceneLemmas

section TriSceneLemmas

theorem xGet_idMap3 (x : Nat) :
    xGet [(0, 0), (1, 1), (2, 2)] x = 0 ∨ xGet [(0, 0), (1, 1), (2, 2)] x = 1 ∨
      xGet [(0, 0), (1, 1), (2, 2)] x = 2 := by
  rcases x with _ | _ | _ | x
  · exact Or.inl rfl
  · exact Or.inr (Or.inl rfl)
  · exact Or.inr (Or.inr rfl)
  · exact Or.inl rfl

/-- On the points, views and distances of `triScene` the similarity of the views `0` and `1`
is `1 / 2` and every other similarity is `0`, for all library functions that are exact at the
arguments they are called with here: `exp 0 = 1`, `acos 1 = 0`, `sqrt 1 = 1` and
`sqrt 4 = 2`. -/
theorem triScene_similarity (F : Libm ℚ) (hexp : F.exp 0 = 1) (hacos : F.acos 1 = 0)
    (hsqrt1 : F.sqrt 1 = 1) (hsqrt4 : F.sqrt 4 = 2) (st : Domset ℚ)
    (hp : st.points = triScene.points) (hv : st.views = triScene.views)
    (hd : st.viewDists = triScene.viewDists) (hσ : st.kAngleSigma_2 = 1) :
    getSimilarityMatrix F st [(0, 0), (1, 1), (2, 2)] =
      some fun xId1 xId2 =>
        if xGet [(0, 0), (1, 1), (2, 2)] xId1 + xGet [(0, 0), (1, 1), (2, 2)] xId2 = 1
        then 1 / 2 else 0 := by
  have hm : getDistanceMedian st [(0, 0), (1, 1), (2, 2)] = some 1 := by
    have h1 : getDistanceMedian triScene [(0, 0), (1, 1), (2, 2)] = some 1 := by decide!
    rw [← h1]
    simp only [getDistanceMedian, medianDists, medianRow, hd]
  have hpl : ¬ ([(0, 0), (1, 1), (2, 2)].length = 0 ∨ st.points.length = 0) := by
    rw [hp]; decide
  rw [getSimilarityMatrix_finite F st _ 1 hpl hm one_ne_zero, Option.some.injEq]
  have h01 : computeViewSimilaity F st (st.views.getD 0 ⟨Vec3.zero, []⟩)
      (st.views.getD 1 ⟨Vec3.zero, []⟩) *
          (1 / (1 + F.exp (-(st.viewDists 0 1 - 1) / 1))) = 1 / 2 := by
    simp [computeViewSimilaity, findCommonPoints, setIntersectionAux, expAngle,
      Vec3.normalize, Vec3.sub, Vec3.dot, Vec3.sdiv, hp, hv, hd, hσ,
      triScene, hexp, hacos, hsqrt1]
    norm_num [hsqrt4, hacos, hexp]
  have h10 : computeViewSimilaity F st (st.views.getD 1 ⟨Vec3.zero, []⟩)
      (st.views.getD 0 ⟨Vec3.zero, []⟩) *
          (1 / (1 + F.exp (-(st.viewDists 1 0 - 1) / 1))) = 1 / 2 := by
    simp [computeViewSimilaity, findCommonPoints, setIntersectionAux, expAngle,
      Vec3.normalize, Vec3.sub, Vec3.dot, Vec3.sdiv, hp, hv, hd, hσ,
      triScene, hexp, hacos, hsqrt1]
    norm_num [hsqrt4, hacos, hexp]
  have h2r : ∀ a, computeViewSimilaity F st (st.views.getD a ⟨Vec3.zero, []⟩)
      (st.views.getD 2 ⟨Vec3.zero, []⟩) *
        (1 / (1 + F.exp (-(st.viewDists a 2 - 1) / 1))) = 0 := by
    intro a
    rw [computeViewSimilaity_eq_zero, zero_mul]
    intro p _
    rw [hv]
    simp [triScene]
  have h2l : ∀ a, computeViewSimilaity F st (st.views.getD 2 ⟨Vec3.zero, []⟩)
      (st.views.getD a ⟨Vec3.zero, []⟩) *
        (1 / (1 + F.exp (-(st.viewDists 2 a - 1) / 1))) = 0 := by
    intro a
    rw [computeViewSimilaity_eq_zero, zero_mul]
    intro p hp2
    rw [hv] at hp2
    simp [triScene] at hp2
  funext xId1 xId2
  rcases xGet_idMap3 xId1 with h1 | h1 | h1 <;>
    rcases xGet_idMap3 xId2 with h2 | h2 | h2 <;> rw [h1, h2]
  · rw [if_pos rfl, if_neg (by decide)]
  · rw [if_neg (by decide), if_pos (by decide)]; exact h01
  · rw [if_neg (by decide), if_neg (by decide)]; exact h2r 0
  · rw [if_neg (by decide), if_pos (by decide)]; exact h10
  · rw [if_pos rfl, if_neg (by decide)]
  · rw [if_neg (by decide), if_neg (by decide)]; exact h2r 1
  · rw [if_neg (by decide), if_neg (by decide)]; exact h2l 0
  · rw [if_neg (by decide), if_neg (by decide)]; exact h2l 1
  · rw [if_pos rfl, if_neg (by decide)]

end TriSceneLemmas

section NormalizerScenes

/-- Witness of C6 on `pairScene` with the centre `(1, 2, 3)` and the scale `2`. -/
theorem deNormalize_normalizeTransform_witness :
    ({ pairScene with pcCentre := ⟨⟨1, 2, 3⟩, []⟩, normScale := 2 } : Domset ℚ).normScale ≠ 0 ∧
      deNormalizePointCloud
          (normalizeTransform { pairScene with pcCentre := ⟨⟨1, 2, 3⟩, []⟩, normScale := 2 }) =
        { pairScene with pcCentre := ⟨⟨1, 2, 3⟩, []⟩, normScale := 2 } :=
  ⟨by decide!, deNormalize_normalizeTransform _ (by decide!)⟩

end NormalizerScenes

section ClusteringScenes

end ClusteringScenes

section FinalizerScenes

/-- C4, the code at the failing input: on `pairScene`, clustered over all views with
`kMinClusterSize = 1` and `kMaxClusterSize = 2 = |V|`, the set `centers` computed from
`E = R + A` has the one element `0`, and `clusterViews` returns the two clusters `[0]` and
`[1]`. This holds for all library functions that are exact where the scene calls them
(`exp 0 = 1`, `acos 1 = 0`, `sqrt 1 = 1`, `sqrt 4 = 2`), as `ratLibm` is. -/
theorem clusterViews_count_ne_centers :
    (∀ F : Libm ℚ, F.exp 0 = 1 → F.acos 1 = 0 → F.sqrt 1 = 1 → F.sqrt 4 = 2 →
      (initialClusterMap F
          { pairScene with kMinClusterSize := 1, kMaxClusterSize := 2 }
          [(0, 0), (1, 1)]).map (fun c => c.1) = some [0] ∧
        (clusterViews F pairScene 1 2).map (fun st => st.finalClusters) =
          some [[0], [1]]) ∧
      ratLibm.exp 0 = 1 ∧ ratLibm.acos 1 = 0 ∧ ratLibm.sqrt 1 = 1 ∧ ratLibm.sqrt 4 = 2 := by
  refine ⟨fun F h1 h2 h3 h4 => ?_, by decide!, by decide!, by decide!, by decide!⟩
  have hS := pairScene_similarity F h1 h2 h3 h4
    { pairScene with kMinClusterSize := 1, kMaxClusterSize := 2 } rfl rfl rfl rfl
  have e : (List.range pairScene.views.length).map (fun i => (i, i)) = [(0, 0), (1, 1)] := by
    decide
  constructor
  · simp only [initialClusterMap, hS]
    decide!
  · simp only [clusterViews, e, computeClustersAP, mergedClusterMap, initialClusterMap, hS]
    decide!

end FinalizerScenes

section VoxelScenes

/-- Witness of C7 on `voxelScene` with the voxel size `1 / 2`. -/
theorem voxelGridFilter_groups_witness :
    ((0 : ℚ) < 1 / 2) ∧
      ∃ st2, voxelGridFilter (fun _ => Vec3.zero) voxelScene (1 / 2) (1 / 2) (1 / 2) = some st2 ∧
        (voxelIdsOf voxelScene.points (1 / 2) (1 / 2) (1 / 2)).Nodup ∧
        (∀ id, id ∈ voxelIdsOf voxelScene.points (1 / 2) (1 / 2) (1 / 2) ↔
          ∃ pt ∈ voxelScene.points, voxelId voxelScene.points (1 / 2) (1 / 2) (1 / 2) pt = id) ∧
        st2.points.length = (voxelIdsOf voxelScene.points (1 / 2) (1 / 2) (1 / 2)).length ∧
        st2.points.length ≤ voxelScene.points.length ∧
        ∀ j id, (voxelIdsOf voxelScene.points (1 / 2) (1 / 2) (1 / 2)).get? j = some id →
          ∃ pt2, st2.points.get? j = some pt2 ∧ pt2.viewList.Sorted (fun x y => x < y) ∧
            ∀ v, v ∈ pt2.viewList ↔
              ∃ pt ∈ voxelScene.points,
                voxelId voxelScene.points (1 / 2) (1 / 2) (1 / 2) pt = id ∧ v ∈ pt.viewList :=
  ⟨by decide!,
    voxelGridFilter_groups (fun _ => Vec3.zero) voxelScene (1 / 2) (1 / 2) (1 / 2)
      (by decide!) (by decide!) (by decide!)⟩

/-- Witness of C8 on `voxelScene` with the voxel size `1 / 2`. -/
theorem voxelGridFilter_backEdges_witness :
    (((0 : ℚ) < 1 / 2) ∧ (∀ vw ∈ voxelScene.views, vw.viewPoints = []) ∧
      ∀ pt ∈ voxelScene.points, ∀ v ∈ pt.viewList, v < voxelScene.views.length) ∧
      ∃ st2, voxelGridFilter (fun _ => Vec3.zero) voxelScene (1 / 2) (1 / 2) (1 / 2) = some st2 ∧
        st2.views.length = voxelScene.views.length ∧
        (∀ v vw, st2.views.get? v = some vw → vw.viewPoints.Sorted (fun x y => x < y)) ∧
        ∀ v i, (∃ vw, st2.views.get? v = some vw ∧ i ∈ vw.viewPoints) ↔
          ∃ pt2, st2.points.get? i = some pt2 ∧ v ∈ pt2.viewList :=
  ⟨⟨by decide!, by decide, by decide⟩,
    voxelGridFilter_backEdges (fun _ => Vec3.zero) voxelScene (1 / 2) (1 / 2) (1 / 2)
      (by decide!) (by decide!) (by decide!) (by decide) (by decide)⟩

/-- C9, the code at the failing input: on the four points of `voxelScene` with the voxel size
`1 / 2` the filter returns two points. When the local `pos` starts every turn at zero they
are the means `(0.01, 0, 0)` and `(1, 0, 0)`; when it holds `(1, 0, 0)`, the value it is not
initialised to is added in, and the points are `(103/300, 0, 0)` and `(2, 0, 0)`. -/
theorem voxelGridFilter_uninitialised_pos :
    (voxelGridFilter (fun _ => Vec3.zero) voxelScene (1 / 2) (1 / 2) (1 / 2)).map
        (fun st => st.points.map fun p => (p.pos.x, p.pos.y, p.pos.z)) =
        some [(1 / 100, 0, 0), (1, 0, 0)] ∧
      (voxelGridFilter (fun _ => ⟨1, 0, 0⟩) voxelScene (1 / 2) (1 / 2) (1 / 2)).map
        (fun st => st.points.map fun p => (p.pos.x, p.pos.y, p.pos.z)) =
        some [(103 / 300, 0, 0), (2, 0, 0)] := by
  constructor <;> decide!

end VoxelScenes

section SimilarityScenes

/-- The range of the similarity matrix over the real numbers, with the real `exp`, `arccos`
and square root, on `pairSceneOf ℝ` and the identity map: the median of the distances is `1`,
the matrix is returned, its diagonal is `0` and the entry of the two views is `1 / 2`, in
`[0, 1]`. -/
theorem getSimilarityMatrix_range_witness :
    ((0 : ℝ) < (pairSceneOf ℝ).kAngleSigma_2 ∧ (∀ x, 0 < Real.exp x) ∧
      (∀ x, x ≤ 0 → Real.exp x ≤ 1)) ∧
      getDistanceMedian (pairSceneOf ℝ) [(0, 0), (1, 1)] = some 1 ∧
      ∃ M, getSimilarityMatrix ⟨Real.exp, Real.arccos, Real.sqrt⟩ (pairSceneOf ℝ)
          [(0, 0), (1, 1)] = some M ∧
        M 0 0 = 0 ∧ M 1 1 = 0 ∧ 0 ≤ M 0 1 ∧ M 0 1 ≤ 1 ∧ M 0 1 = 1 / 2 := by
  have hσ : (0 : ℝ) < (pairSceneOf ℝ).kAngleSigma_2 := by simp [pairSceneOf]
  have hle : ∀ x : ℝ, x ≤ 0 → Real.exp x ≤ 1 := fun x hx => Real.exp_le_one_iff.2 hx
  have hmed : getDistanceMedian (pairSceneOf ℝ) [(0, 0), (1, 1)] = some 1 := by
    simp [getDistanceMedian, medianDists, medianRow, xAt, pairSceneOf, List.range_succ,
      List.lookup]
  refine ⟨⟨hσ, Real.exp_pos, hle⟩, hmed, ?_⟩
  obtain ⟨hret, hall⟩ := getSimilarityMatrix_range ⟨Real.exp, Real.arccos, Real.sqrt⟩
    (pairSceneOf ℝ) [(0, 0), (1, 1)] hσ Real.exp_pos hle
  obtain ⟨m, hm, hM⟩ := hret (by decide) (by decide) (by simp [pairSceneOf])
  have hm1 : m = 1 := by
    rw [hmed] at hm
    exact (Option.some.inj hm).symm
  subst hm1
  obtain ⟨M, hM⟩ := hM one_ne_zero
  obtain ⟨m2, hm2, hprops⟩ := hall M hM
  have hm21 : m2 = 1 := by
    rw [hmed] at hm2
    exact (Option.some.inj hm2).symm
  subst hm21
  have h00 := hprops 0 0 (by decide) (by decide)
  have h11 := hprops 1 1 (by decide) (by decide)
  have h01 := hprops 0 1 (by decide) (by decide)
  refine ⟨M, hM, h00.1, h11.1, h01.2.1, h01.2.2.1, ?_⟩
  have hne : xGet [(0, 0), (1, 1)] 0 ≠ xGet [(0, 0), (1, 1)] 1 := by decide
  obtain ⟨sd, hsd, hprod, _⟩ := h01.2.2.2.2 hne
  rw [computeViewDistance_finite _ _ _ _ _ hne one_ne_zero] at hsd
  rw [hprod, ← Option.some.inj hsd]
  simp [computeViewSimilaity, findCommonPoints, setIntersectionAux, expAngle, Vec3.normalize,
    Vec3.sub, Vec3.dot, Vec3.sdiv, pairSceneOf, xGet, List.lookup]
  norm_num

/-- The guard of source line 227 compares the view ids: when a map that is not injective
sends the two items `0` and `1` to the same view `0` of `pairSceneOf ℝ`, the off-diagonal
entry `(0, 1)` of the returned matrix is `0`, while the product of `computeViewSimilaity` and
`computeViewDistance` for the two view ids is `1` (for equal view ids `computeViewDistance`
returns `1` before it divides). -/
theorem getSimilarityMatrix_same_view :
    ∃ M, getSimilarityMatrix ⟨Real.exp, Real.arccos, Real.sqrt⟩ (pairSceneOf ℝ)
        [(0, 0), (1, 0)] = some M ∧
      M 0 1 = 0 ∧
      ∀ m, (computeViewDistance ⟨Real.exp, Real.arccos, Real.sqrt⟩ (pairSceneOf ℝ)
          (xGet [(0, 0), (1, 0)] 0) (xGet [(0, 0), (1, 0)] 1) m).map
        (fun sd => computeViewSimilaity ⟨Real.exp, Real.arccos, Real.sqrt⟩ (pairSceneOf ℝ)
          ((pairSceneOf ℝ).views.getD (xGet [(0, 0), (1, 0)] 0) ⟨Vec3.zero, []⟩)
          ((pairSceneOf ℝ).views.getD (xGet [(0, 0), (1, 0)] 1) ⟨Vec3.zero, []⟩) * sd) =
        some 1 := by
  obtain ⟨m0, hm0⟩ := getDistanceMedian_isSome (pairSceneOf ℝ) [(0, 0), (1, 0)]
    (by decide) (by decide)
  have h1 : ¬ ([(0, 0), (1, 0)].length = 0 ∨ (pairSceneOf ℝ).points.length = 0) := by
    simp [pairSceneOf]
  have hentry : ∀ x1 x2, similarityEntry ⟨Real.exp, Real.arccos, Real.sqrt⟩ (pairSceneOf ℝ)
      [(0, 0), (1, 0)] m0 x1 x2 = some 0 := by
    intro x1 x2
    have hx : ∀ x, xGet [(0, 0), (1, 0)] x = 0 := by
      intro x
      rcases x with _ | _ | x <;> rfl
    simp only [similarityEntry, hx, if_true]
  simp only [getSimilarityMatrix, h1, if_false, hm0, Option.some_bind, hentry,
    Option.isSome_some, List.all_eq_true, implies_true, if_true, Option.getD_some]
  refine ⟨_, rfl, rfl, ?_⟩
  intro m
  simp [computeViewSimilaity, findCommonPoints, setIntersectionAux, expAngle, Vec3.normalize,
    Vec3.sub, Vec3.dot, Vec3.sdiv, pairSceneOf, computeViewDistance, xGet, List.lookup]

/-- C10, the code at the failing input: on `coScene` (two cameras at the same place, the
identity map, `kAngleSigma_2 = 1`) the two items have the different view ids `0` and `1`,
their view distance is `0` and the median of the distances is `0`. Whatever the library
functions are, `computeViewDistance` divides `0` by `0`: the distance term and with it the
off-diagonal entry `(0, 1)` of the similarity matrix is NaN (`none`), not a number of
`[0, 1]`, and the embedding of `getSimilarityMatrix` yields `none` for the matrix. With the
one item `0` alone the median reads an empty vector. -/
theorem getSimilarityMatrix_nan :
    (xGet [(0, 0), (1, 1)] 0 ≠ xGet [(0, 0), (1, 1)] 1 ∧ coScene.viewDists 0 1 = 0 ∧
      0 < coScene.kAngleSigma_2) ∧
      getDistanceMedian coScene [(0, 0), (1, 1)] = some 0 ∧
      getDistanceMedian coScene [(0, 0)] = none ∧
      ∀ F : Libm ℚ, computeViewDistance F coScene 0 1 0 = none ∧
        similarityEntry F coScene [(0, 0), (1, 1)] 0 0 1 = none ∧
        getSimilarityMatrix F coScene [(0, 0), (1, 1)] = none := by
  have hmed : getDistanceMedian coScene [(0, 0), (1, 1)] = some 0 := by decide!
  refine ⟨by decide!, hmed, by decide!, fun F => ?_⟩
  have h01 : similarityEntry F coScene [(0, 0), (1, 1)] 0 0 1 = none := by
    have hne : xGet [(0, 0), (1, 1)] 0 ≠ xGet [(0, 0), (1, 1)] 1 := by decide
    simp only [similarityEntry, if_neg hne,
      computeViewDistance_nan F coScene _ _ hne rfl, Option.map_none']
  refine ⟨computeViewDistance_nan F coScene 0 1 (by decide) rfl, h01, ?_⟩
  have hpl : ¬ ([(0, 0), (1, 1)].length = 0 ∨ coScene.points.length = 0) := by decide
  have hr : List.range [(0, 0), (1, 1)].length = [0, 1] := rfl
  simp only [getSimilarityMatrix, if_neg hpl, hmed, Option.some_bind, hr, List.all_cons, h01,
    Option.isSome_none, Bool.and_false, Bool.false_and, Bool.false_eq_true, if_false]

end SimilarityScenes

section DistanceScenes

/-- Witness of C11 over the real numbers, with the real square root, on the two views of
`pairSceneOf ℝ`. -/
theorem getAllDistances_symm_witness :
    ((pairSceneOf ℝ).views ≠ [] ∧ Real.sqrt 0 = 0 ∧ ∀ x, 0 ≤ Real.sqrt x) ∧
      ∃ st2, getAllDistances ⟨Real.exp, Real.arccos, Real.sqrt⟩ (pairSceneOf ℝ) = some st2 ∧
        ∀ i j, i < (pairSceneOf ℝ).views.length → j < (pairSceneOf ℝ).views.length →
          st2.viewDists i j = st2.viewDists j i ∧ st2.viewDists i i = 0 ∧
            0 ≤ st2.viewDists i j :=
  ⟨⟨by simp [pairSceneOf], Real.sqrt_zero, Real.sqrt_nonneg⟩,
    getAllDistances_symm ⟨Real.exp, Real.arccos, Real.sqrt⟩ (pairSceneOf ℝ)
      (by simp [pairSceneOf]) Real.sqrt_zero Real.sqrt_nonneg⟩

end DistanceScenes

section PropagationScenes

/-- C12, the code at the failing input: on `lineScene` (`lambda = 1 / 2`) no two views share
a point, so every similarity is `0`, whatever the library functions are. In the first
iteration (`A = R = 0`) every candidate `S(i,k') + A(i,k')` is `0`, so the maximum over
`k' != k` is `0` and the rule gives `R(i,k) = (1 - lambda) * (0 - 0) + lambda * 0 = 0`; the
running maximum of the code starts at `FLT_MIN = 2^-126` and stays there, and the code sets
every `R(i,k)` to `(1 - 1/2) * (0 - 2^-126) = -2^-127`. -/
theorem updateResponsibility_flt_min :
    lineScene.lambda = 1 / 2 ∧
      ∀ F : Libm ℚ, ∃ S, getSimilarityMatrix F lineScene [(0, 0), (1, 1), (2, 2)] = some S ∧
        (∀ i k, S i k + (fun _ _ => (0 : ℚ)) i k = 0) ∧
        ∀ i k, k < 3 →
          updateResponsibility lineScene.lambda 3 S (fun _ _ => 0) (fun _ _ => 0) i k =
            -(1 / 2 ^ 127) ∧
          updateResponsibility lineScene.lambda 3 S (fun _ _ => 0) (fun _ _ => 0) i k ≠
            (1 - lineScene.lambda) * (S i k - 0) + lineScene.lambda * 0 := by
  refine ⟨rfl, fun F => ?_⟩
  refine ⟨_, lineScene_similarity F lineScene rfl rfl rfl, fun i k => by simp, ?_⟩
  intro i k hk
  have h : updateResponsibility lineScene.lambda 3 (fun _ _ => (0 : ℚ)) (fun _ _ => 0)
      (fun _ _ => 0) i k = -(1 / 2 ^ 127) := by
    simp only [updateResponsibility, runningMax]
    interval_cases k <;> decide!
  refine ⟨h, ?_⟩
  rw [h]
  decide!

/-- Witness of C13 with four items, `lambda = 1 / 2`, `R(i,k) = i - 2 k + 1`, `A = 0` and the
entry `(1, 3)`. -/
theorem updateAvailability_single_sum_witness :
    ((1 : Nat) < 4 ∧ (3 : Nat) < 4 ∧ (1 : Nat) ≠ 3) ∧
      (updateAvailability (1 / 2 : ℚ) 4 (fun i k => (i : ℚ) - 2 * k + 1) (fun _ _ => 0) 1 3 =
          (1 - 1 / 2) * Min.min 0 ((fun i k => (i : ℚ) - 2 * k + 1) 3 3 +
            (((List.range 4).filter fun ii => ii ≠ 1 ∧ ii ≠ 3).map
              fun ii => Max.max 0 ((fun i k => (i : ℚ) - 2 * k + 1) ii 3)).sum) +
            1 / 2 * (fun _ _ => (0 : ℚ)) 1 3 ∧
        updateAvailability (1 / 2 : ℚ) 4 (fun i k => (i : ℚ) - 2 * k + 1) (fun _ _ => 0) 3 3 =
          (fun _ _ => (0 : ℚ)) 3 3 ∧
        ∀ m, (apIterate (1 / 2 : ℚ) 4 (fun _ _ => 0) m (fun _ _ => 0, fun _ _ => 0)).2 3 3 = 0) :=
  ⟨by decide,
    updateAvailability_single_sum (1 / 2 : ℚ) 4 (fun _ _ => 0) (fun i k => (i : ℚ) - 2 * k + 1)
      (fun _ _ => 0) 1 3 (by decide) (by decide) (by decide)⟩

end PropagationScenes

section ExemplarScenes

/-- C14, the code at the failing input: on `lineScene` (`lambda = 1 / 2`, `kNumIter = 2`,
every similarity `0`, whatever the library functions are) row `1` of `E = R + A` is
`(-5 * 2^-128, -3 * 2^-128, -5 * 2^-128)`, so its argmax is the index `1`. No entry of the
row is above the start value `FLT_MIN` of `maxSim`, so `idxForI` keeps the value `0` it had
before the row: the exemplar recorded for row `1` is `0`, and `centers` is `{0}`. -/
theorem findCenters_stale_exemplar :
    (lineScene.lambda = 1 / 2 ∧ lineScene.kNumIter = 2) ∧
      ∀ F : Libm ℚ, ∃ S, getSimilarityMatrix F lineScene [(0, 0), (1, 1), (2, 2)] = some S ∧
        exemplarMatrix lineScene.lambda 3 lineScene.kNumIter S 1 0 = -(5 / 2 ^ 128) ∧
        exemplarMatrix lineScene.lambda 3 lineScene.kNumIter S 1 1 = -(3 / 2 ^ 128) ∧
        exemplarMatrix lineScene.lambda 3 lineScene.kNumIter S 1 2 = -(5 / 2 ^ 128) ∧
        exemplarOfRow (exemplarMatrix lineScene.lambda 3 lineScene.kNumIter S) 3 0 0 = 0 ∧
        exemplarOfRow (exemplarMatrix lineScene.lambda 3 lineScene.kNumIter S) 3 1 0 = 0 ∧
        findCenters (exemplarMatrix lineScene.lambda 3 lineScene.kNumIter S) 3 = ([0], 0) ∧
        (initialClusterMap F lineScene [(0, 0), (1, 1), (2, 2)]).map (fun c => c.1) =
          some [0] := by
  refine ⟨by decide!, fun F => ?_⟩
  have hS := lineScene_similarity F lineScene rfl rfl rfl
  refine ⟨_, hS, by decide!, by decide!, by decide!, by decide!, by decide!, by decide!, ?_⟩
  simp only [initialClusterMap, hS]
  decide!

/-- C15, the code at the failing input: on `pairScene` (two views that share the one point)
`centers` is `{0}` and `S(1, 0) = 1 / 2`, so the center that maximizes `S(1, c)` is `0`. The
code sets `idxForI = i` where it finds a center above the running maximum, so the item `1` is
appended to `clMap[1]`: the initial cluster map has the two keys `0` and `1`, and the key `1`
is not a center. This holds for all library functions that are exact where the scene calls
them (`exp 0 = 1`, `acos 1 = 0`, `sqrt 1 = 1`, `sqrt 4 = 2`), as `ratLibm` is. -/
theorem initialClusters_key_not_center :
    (∀ F : Libm ℚ, F.exp 0 = 1 → F.acos 1 = 0 → F.sqrt 1 = 1 → F.sqrt 4 = 2 →
      ∃ S, getSimilarityMatrix F pairScene [(0, 0), (1, 1)] = some S ∧
        S 1 0 = 1 / 2 ∧
        initialClusterMap F pairScene [(0, 0), (1, 1)] = some ([0], [(0, [0]), (1, [1])]) ∧
        assignKey S [0] 1 0 = 1) ∧
      (1 : Nat) ∉ [0] ∧
      ratLibm.exp 0 = 1 ∧ ratLibm.acos 1 = 0 ∧ ratLibm.sqrt 1 = 1 ∧ ratLibm.sqrt 4 = 2 := by
  refine ⟨fun F h1 h2 h3 h4 => ?_, by decide, by decide!, by decide!, by decide!, by decide!⟩
  have hS := pairScene_similarity F h1 h2 h3 h4 pairScene rfl rfl rfl rfl
  refine ⟨_, hS, by decide!, ?_, by decide!⟩
  simp only [initialClusterMap, hS]
  decide!

end ExemplarScenes

section MergeScenes

/-- C16, the code at the failing input: on `triScene` (`kMinClusterSize = 2`,
`kMaxClusterSize = 3`) the initial cluster map is `0: [0]`, `1: [1, 2]`, with the sizes `1`
and `2`. The cluster `[0]` is undersized and `1 + 2 <= 3`, but the search tests
`1 + 2 < 3` and finds no target (`minId = -1`): the cluster is erased without a merge, and
`computeClustersAP` returns the one cluster `[1, 2]`, not a cluster of size `3`. This holds
for all library functions that are exact where the scene calls them (`exp 0 = 1`,
`acos 1 = 0`, `sqrt 1 = 1`, `sqrt 4 = 2`), as `ratLibm` is. -/
theorem mergeTarget_strict_bound :
    (triScene.kMinClusterSize = 2 ∧ triScene.kMaxClusterSize = 3 ∧
      1 + 2 ≤ triScene.kMaxClusterSize) ∧
      (∀ F : Libm ℚ, F.exp 0 = 1 → F.acos 1 = 0 → F.sqrt 1 = 1 → F.sqrt 4 = 2 →
        initialClusterMap F triScene [(0, 0), (1, 1), (2, 2)] =
            some ([0, 1], [(0, [0]), (1, [1, 2])]) ∧
          mergedClusterMap F triScene [(0, 0), (1, 1), (2, 2)] = some [(1, [1, 2])] ∧
          computeClustersAP F triScene [(0, 0), (1, 1), (2, 2)] [] = some [[1, 2]]) ∧
      mergeTarget triScene [(0, 0), (1, 1), (2, 2)] [(0, [0]), (1, [1, 2])] 0 1 =
        some (FLT_MAX, -1) ∧
      ratLibm.exp 0 = 1 ∧ ratLibm.acos 1 = 0 ∧ ratLibm.sqrt 1 = 1 ∧ ratLibm.sqrt 4 = 2 := by
  refine ⟨by decide, fun F h1 h2 h3 h4 => ?_, by decide!, by decide!, by decide!, by decide!,
    by decide!⟩
  have hS := triScene_similarity F h1 h2 h3 h4 triScene rfl rfl rfl rfl
  refine ⟨?_, ?_, ?_⟩
  · simp only [initialClusterMap, hS]
    decide!
  · simp only [mergedClusterMap, initialClusterMap, hS]
    decide!
  · simp only [computeClustersAP, mergedClusterMap, initialClusterMap, hS]
    decide!

/-- C18: an input whose returned clusters do not cover the clustered views. On `triScene`
with the valid bounds `kMinClusterSize = kMaxClusterSize = 2` the initial cluster map is
`0: [0]`, `1: [1, 2]`. The cluster `[0]` has fewer than `kMinClusterSize` members and no
merge target (`minId = -1`); the min-size merge erases it, `computeClustersAP` returns the
one cluster `[1, 2]`, and the view `0`, a value of `xId2vId`, is in no returned cluster.
This holds for all library functions that are exact where the scene calls them, as
`ratLibm` is. -/
theorem computeClustersAP_drops_view :
    (1 ≤ 2 ∧ 2 ≤ 2) ∧
      (∀ F : Libm ℚ, F.exp 0 = 1 → F.acos 1 = 0 → F.sqrt 1 = 1 → F.sqrt 4 = 2 →
        initialClusterMap F { triScene with kMinClusterSize := 2, kMaxClusterSize := 2 }
            [(0, 0), (1, 1), (2, 2)] = some ([0, 1], [(0, [0]), (1, [1, 2])]) ∧
          mergedClusterMap F { triScene with kMinClusterSize := 2, kMaxClusterSize := 2 }
            [(0, 0), (1, 1), (2, 2)] = some [(1, [1, 2])] ∧
          computeClustersAP F { triScene with kMinClusterSize := 2, kMaxClusterSize := 2 }
            [(0, 0), (1, 1), (2, 2)] [] = some [[1, 2]]) ∧
      mergeTarget { triScene with kMinClusterSize := 2, kMaxClusterSize := 2 }
          [(0, 0), (1, 1), (2, 2)] [(0, [0]), (1, [1, 2])] 0 1 = some (FLT_MAX, -1) ∧
      ([0] : List Nat).length < 2 ∧
      0 ∈ [(0, 0), (1, 1), (2, 2)].map Prod.snd ∧ (∀ c ∈ [[1, 2]], 0 ∉ c) ∧
      ratLibm.exp 0 = 1 ∧ ratLibm.acos 1 = 0 ∧ ratLibm.sqrt 1 = 1 ∧ ratLibm.sqrt 4 = 2 := by
  refine ⟨by decide, fun F h1 h2 h3 h4 => ?_, by decide!, by decide, by decide, by decide,
    by decide!, by decide!, by decide!, by decide!⟩
  have hS := triScene_similarity F h1 h2 h3 h4
    { triScene with kMinClusterSize := 2, kMaxClusterSize := 2 } rfl rfl rfl rfl
  refine ⟨?_, ?_, ?_⟩
  · simp only [initialClusterMap, hS]
    decide!
  · simp only [mergedClusterMap, initialClusterMap, hS]
    decide!
  · simp only [computeClustersAP, mergedClusterMap, initialClusterMap, hS]
    decide!

end MergeScenes

section SplitScenes

/-- Witness of C17 with eight members and `kMaxClusterSize = 3`: the chunks have the sizes
`3, 3, 2`. -/
theorem emitCluster_chunks_witness :
    (1 ≤ 3 ∧ 3 < [4, 1, 7, 0, 6, 2, 5, 3].length) ∧
      emitCluster 3 ((List.range 8).map fun i => (i, i)) [4, 1, 7, 0, 6, 2, 5, 3] [] =
        some [[1, 4, 7], [0, 2, 6], [3, 5]] ∧
      ∃ chunks : List (List Nat),
        emitCluster 3 ((List.range 8).map fun i => (i, i)) [4, 1, 7, 0, 6, 2, 5, 3] [] =
          some ([] ++ chunks) ∧
        chunks.length = ([4, 1, 7, 0, 6, 2, 5, 3].length + 3 - 1) / 3 ∧
        (∀ j, j < chunks.length → ∃ c, chunks.get? j = some c ∧
          c = (((([4, 1, 7, 0, 6, 2, 5, 3].map
            (xGet ((List.range 8).map fun i => (i, i)))).drop (j * 3)).take
            3).insertionSort fun a b => a ≤ b) ∧
          c.Sorted (fun a b => a ≤ b) ∧
          c.Perm ((([4, 1, 7, 0, 6, 2, 5, 3].map
            (xGet ((List.range 8).map fun i => (i, i)))).drop (j * 3)).take 3) ∧
          (j + 1 < chunks.length → c.length = 3) ∧
          1 ≤ c.length ∧ c.length ≤ 3) ∧
        chunks.flatten.Perm ([4, 1, 7, 0, 6, 2, 5, 3].map
          (xGet ((List.range 8).map fun i => (i, i)))) :=
  ⟨by decide, by decide,
    emitCluster_chunks 3 ((List.range 8).map fun i => (i, i)) [4, 1, 7, 0, 6, 2, 5, 3] []
      (by decide) (by decide)⟩

end SplitScenes

section GridScenes

/-- C19, the code at the failing input: the points of `voxelScene` have the bounding box
`[0, 1] x [0, 0] x [0, 0]`, so with the voxel size `h = 3 / 8` the counts
`ceil((max - min) / h)` are `(3, 0, 0)`. The code computes `(2, 2, 2)`: it takes the ceiling
of the difference before the division (`ceil(1) / h = 8 / 3`, cut to `2`), and its maximum
starts from `FLT_MIN`, so the maximal `y` and `z` are `2^-126` and not `0`
(`ceil(2^-126) / h = 8 / 3`). -/
theorem numVoxels_misplaced_ceil :
    (0 : ℚ) < 3 / 8 ∧
      (∀ pt ∈ voxelScene.points, 0 ≤ pt.pos.x ∧ pt.pos.x ≤ 1 ∧ pt.pos.y = 0 ∧ pt.pos.z = 0) ∧
      (∃ pt ∈ voxelScene.points, pt.pos.x = 0) ∧ (∃ pt ∈ voxelScene.points, pt.pos.x = 1) ∧
      (⌈((1 : ℚ) - 0) / (3 / 8)⌉ = 3 ∧ ⌈((0 : ℚ) - 0) / (3 / 8)⌉ = 0) ∧
      numVoxels voxelScene.points (3 / 8) (3 / 8) (3 / 8) = (2, 2, 2) ∧
      (voxelMaxPt voxelScene.points).x = 1 ∧ (voxelMaxPt voxelScene.points).y = FLT_MIN ∧
      (voxelMaxPt voxelScene.points).z = FLT_MIN ∧
      (voxelMinPt voxelScene.points).x = 0 ∧ (voxelMinPt voxelScene.points).y = 0 ∧
      (voxelMinPt voxelScene.points).z = 0 := by
  refine ⟨by decide!, by decide!, by decide!, by decide!, by decide!, by decide!, by decide!,
    by decide!, by decide!, by decide!, by decide!, by decide!⟩

/-- C20: a point list on which the voxel id is not injective. On `gridScene` with the voxel
size `1` the counts are `(2, 2, 1)`; the points `(2,0,0)` and `(0,1,0)` have the different
cells `(2, 0, 0)` and `(0, 1, 0)` and the same id `0 * 1 + 0 * 2 + 2 = 0 * 1 + 1 * 2 + 0 = 2`.
The filter makes one output point of the two, whatever the local `pos` held: its view list
is the union `[0, 1]`, and with `pos` started at zero its position is the mean
`(1, 1/2, 0)`. -/
theorem voxelId_collision :
    (0 : ℚ) < 1 ∧
      gridScene.points.map (voxelCell gridScene.points 1 1 1) =
        [(2, 0, 0), (0, 1, 0), (0, 2, 0)] ∧
      gridScene.points.map (voxelId gridScene.points 1 1 1) = [2, 2, 4] ∧
      numVoxels gridScene.points 1 1 1 = (2, 2, 1) ∧
      (∀ uninit : Nat → Vec3 ℚ,
        (voxelGridFilter uninit gridScene 1 1 1).map
          (fun st => st.points.map fun p => p.viewList) = some [[0, 1], [0]]) ∧
      (voxelGridFilter (fun _ => Vec3.zero) gridScene 1 1 1).map
          (fun st => st.points.map fun p => (p.pos.x, p.pos.y, p.pos.z)) =
        some [(1, 1 / 2, 0), (0, 2, 0)] := by
  refine ⟨by decide!, by decide!, by decide!, by decide!, fun uninit => ?_, by decide!⟩
  rw [voxelGridFilter_eq uninit gridScene 1 1 1 (by decide!) (by decide!) (by decide!)]
  simp only [Option.map_some', List.map_map, Function.comp_def]
  decide!

end GridScenes

section DisjointScenes

end DisjointScenes

end nomoko
